import Mathlib

/-!
# WarPie core pipeline: shallow embedding and verification

This file embeds the algorithmic core of the WarPie repository
(`bin/warpie-kismet-to-wigle.py` and `bin/warpie-filter-processor.py`)
into Lean 4 and proves properties of the embedded definitions.

Conventions used throughout:
* Python `str` is modelled as `String` (operated on through `String.data`
  where character-level reasoning is needed).
* Python `float` values carrying positions, timestamps and signal data are
  modelled as `ℚ` (exact arithmetic; no claim below depends on rounding of
  binary floating point).
* SQLite `NULL` positions are modelled as `0` (Kismet writes `0` for
  "no GPS"), so SQL conditions of the form `x = 0 OR x IS NULL` become
  `x = 0`.
* Python exceptions that a claim depends on are modelled with explicit
  outcome oracles; otherwise execution is modelled error-free.
-/

/-! ## Glob matching

`warpie-filter-processor.py` (`matches_pattern`) and
`warpie-kismet-to-wigle.py` (`matches_ssid_exclusion`) both delegate
wildcard matching to Python `fnmatch.fnmatch`.  On the POSIX platform the
tool targets (Raspberry Pi), `os.path.normcase` is the identity, so
`fnmatch.fnmatch` is case-sensitive and coincides with
`fnmatch.fnmatchcase`.  `fnGlob` below models `fnmatch.fnmatchcase`:
`*` matches any run of characters, `?` exactly one character, `[...]` a
character class (`[!...]` negated, a leading `]` is literal, `a-z` is a
range, an unterminated `[` is a literal `[`).
-/

/-- One item of a `[...]` character class: a single character or a range. -/
inductive ClsItem where
  | one (c : Char)
  | range (lo hi : Char)
deriving DecidableEq, Repr

/-- Split the input at the first `]`, returning the content before it and
the remainder after it; `none` if no `]` occurs. -/
def findClose : List Char → Option (List Char × List Char)
  | [] => none
  | c :: rest =>
    if c = ']' then some ([], rest)
    else (findClose rest).map (fun q => (c :: q.1, q.2))


/-- Parse the body of a character class into single characters and ranges;
`a-z` is a range, a trailing `-` is literal (models `fnmatch.translate`). -/
def parseItems : List Char → List ClsItem
  | [] => []
  | c :: '-' :: d :: rest => ClsItem.range c d :: parseItems rest
  | c :: rest => ClsItem.one c :: parseItems rest

/-- Core of class parsing: the negation flag was already extracted; a
leading `]` belongs to the class body. -/
def parseClsCore (neg : Bool) (cs1 : List Char) :
    Option (Bool × List ClsItem × List Char) :=
  match cs1 with
  | ']' :: r => (findClose r).map (fun q => (neg, parseItems (']' :: q.1), q.2))
  | cs1 => (findClose cs1).map (fun q => (neg, parseItems q.1, q.2))

/-- Parse a character class whose opening `[` was already consumed.
Returns the negation flag, the items and the input after the closing `]`;
`none` when the class is unterminated (then `[` is a literal). -/
def parseCls (cs : List Char) : Option (Bool × List ClsItem × List Char) :=
  match cs with
  | '!' :: r => parseClsCore true r
  | cs => parseClsCore false cs



/-- Does a character match one class item? -/
def clsItemMatch (c : Char) : ClsItem → Bool
  | ClsItem.one d => c == d
  | ClsItem.range lo hi => decide (lo ≤ c) && decide (c ≤ hi)

/-- Does a character match a (possibly negated) character class? -/
def clsMatch (items : List ClsItem) (neg : Bool) (c : Char) : Bool :=
  (items.any (clsItemMatch c)) != neg

/-- Matching of a `*` wildcard: try the continuation on every suffix of
the input (the input with zero or more leading characters consumed). -/
def globStar (next : List Char → Bool) : List Char → Bool
  | [] => next []
  | c :: s => next (c :: s) || globStar next s

/-- One step of `fnmatch`-style matching, parameterised by a fuel bound on
the pattern length so that the recursion is structural (the `[...]` case
jumps past the parsed class).  With `fuel ≥ pattern.length` the fuel is
never exhausted: every recursive call strictly shrinks the pattern. -/
def fnGlobAux : Nat → List Char → List Char → Bool
  | 0, _, s => s.isEmpty
  | _ + 1, [], s => s.isEmpty
  | fuel + 1, p :: ps, s =>
    if p = '*' then globStar (fnGlobAux fuel ps) s
    else if p = '[' then
      match parseCls ps with
      | some (neg, items, ps2) =>
        (match s with
          | [] => false
          | c :: s2 => clsMatch items neg c && fnGlobAux fuel ps2 s2)
      | none =>
        match s with
        | [] => false
        | c :: s2 => ('[' == c) && fnGlobAux fuel ps s2
    else
      match s with
      | [] => false
      | c :: s2 => (p == '?' || p == c) && fnGlobAux fuel ps s2

/-- Model of Python `fnmatch.fnmatchcase` (equal to `fnmatch.fnmatch` on
POSIX): first argument is the pattern, second the name being matched. -/
def fnGlob (p s : List Char) : Bool := fnGlobAux p.length p s

/-- The glob semantics exactly as the specification words them: `*` matches
any run of characters, `?` exactly one character, every other character
matches only itself.  Case-sensitive; first argument is the pattern. -/
def specGlobCS : List Char → List Char → Bool
  | [], s => s.isEmpty
  | p :: ps, s =>
    if p = '*' then globStar (specGlobCS ps) s
    else
      match s with
      | [] => false
      | c :: s2 => (p == '?' || p == c) && specGlobCS ps s2

/-- ASCII lower-casing of a character list (model of Python `str.lower`
on the ASCII names and patterns at issue). -/
def lowerChars (l : List Char) : List Char := l.map Char.toLower

/-- The claimed semantics of the spec sentence under test: glob matching
with `*`/`?`, compared case-insensitively.  First argument the pattern. -/
def specGlobCI (pat name : List Char) : Bool :=
  specGlobCS (lowerChars pat) (lowerChars name)

/-- A pattern is bracket-free when it contains no `[` (no character
class); on such patterns `fnmatch` and plain `*`/`?` glob coincide. -/
def noBracket (p : List Char) : Bool := !(p.contains '[')

/-! ## Filter rules and name matchers

From `warpie-filter-processor.py`: `FilterRule`, `matches_pattern`,
`find_matching_rule`; from `warpie-kismet-to-wigle.py`:
`matches_ssid_exclusion` (the exporter keeps its rules as bare
`(pattern, match_type)` pairs).
-/

/-- `FilterRule` dataclass of the filter processor. -/
structure FilterRule where
  value : String
  match_type : String
  description : String := ""
deriving DecidableEq, Repr

/-- `matches_pattern(ssid, rule)`: `exact` is string equality, `pattern`
is `fnmatch` matching, `bssid` and unknown types never match a name. -/
def matches_pattern (ssid : String) (rule : FilterRule) : Bool :=
  if rule.match_type = "exact" then ssid == rule.value
  else if rule.match_type = "pattern" then fnGlob rule.value.data ssid.data
  else false

/-- `find_matching_rule(ssid, rules)`: first rule in stored order that
matches, else none. -/
def find_matching_rule (ssid : String) (rules : List FilterRule) :
    Option FilterRule :=
  rules.find? (fun r => matches_pattern ssid r)

/-- `matches_ssid_exclusion(name, exclusions)` of the exporter: any
`(pattern, match_type)` pair matches, with the same two match kinds. -/
def matches_ssid_exclusion (name : String)
    (exclusions : List (String × String)) : Bool :=
  exclusions.any (fun pm =>
    (pm.2 == "exact" && name == pm.1) ||
    (pm.2 == "pattern" && fnGlob pm.1.data name.data))

/-! ## Device records and Kismet JSON decoding

From `warpie-kismet-to-wigle.py`.  The nested JSON attribute blob stored
in the `devices.device` column is modelled by `KJson`, a record holding
exactly the fields the three `_parse_*_device` functions read; a key
missing from the JSON is modelled by the corresponding Python
`get`-default, and a blob that fails to parse (`json.JSONDecodeError`
etc., caught and turned into all-default results) is modelled as `none`.
-/

/-- One entry of `dot11.device.advertised_ssid_map`: the advertised SSID
and capability bitmask (`crypt_set`) which the code reads from it. -/
structure AdvSsid where
  ssid : String := ""
  crypt_set : Nat := 0
deriving DecidableEq, Repr

/-- The decoded device attribute blob (fields of the Kismet JSON that the
parsers read, with Python `get`-defaults for missing keys).  `last_signal`
models `kismet.device.base.signal / kismet.common.signal.last_signal`
with default `-100`. -/
structure KJson where
  advertised : List AdvSsid := []
  probed : List String := []
  commonname : String := ""
  basename : String := ""
  channel : Int := 0
  frequency : Int := 0
  last_signal : Int := -100
  btle_common_name : String := ""
  btle_advertised_name : String := ""
  bt_name : String := ""
deriving DecidableEq, Repr

/-- `_freq_to_channel(freq)`: KHz→MHz normalisation then the 2.4/5 GHz
channel-numbering formulas (`//` is Python floor division). -/
def freq_to_channel (freq : Int) : Int :=
  if freq = 0 then 0
  else
    let f := if freq > 10000 then Int.fdiv freq 1000 else freq
    if 2412 ≤ f ∧ f ≤ 2484 then
      if f = 2484 then 14 else Int.fdiv (f - 2412) 5 + 1
    else if 5170 ≤ f ∧ f ≤ 5825 then
      Int.fdiv (f - 5000) 5
    else 0

/-- `_crypt_to_auth_mode(crypt)`: decode the capability bitmask,
newest-standard bit first; no security bit means `OPEN`.  The bitmask is
non-negative in Kismet, hence `Nat`. -/
def crypt_to_auth_mode (crypt : Nat) : String :=
  if crypt = 0 then "OPEN"
  else if crypt &&& 0x800000 ≠ 0 then "WPA3"
  else if crypt &&& 0x400 ≠ 0 then "WPA2"
  else if crypt &&& 0x200 ≠ 0 then "WPA"
  else if crypt &&& 0x100 ≠ 0 then "WEP"
  else "OPEN"

/-- `_parse_wifi_device(device_json)`: returns
`(ssid, auth_mode, channel, rssi)`.  SSID: first advertised SSID, else
`commonname`, else base `name`; channel: direct field else derived from
frequency; auth mode decoded from the first advertised SSID's
`crypt_set`. -/
def parse_wifi_device : Option KJson → String × String × Int × Int
  | none => ("", "", 0, -100)
  | some j =>
    let ssid0 := match j.advertised with
      | [] => ""
      | a :: _ => a.ssid
    let ssid1 := if ssid0 = "" then j.commonname else ssid0
    let ssid := if ssid1 = "" then j.basename else ssid1
    let channel := if j.channel = 0 then freq_to_channel j.frequency else j.channel
    let auth := match j.advertised with
      | [] => ""
      | a :: _ => crypt_to_auth_mode a.crypt_set
    (ssid, auth, channel, j.last_signal)

/-- `_parse_btle_device(device_json)`: returns `(name, rssi)` with the
BTLE-specific then generic name fallback chain. -/
def parse_btle_device : Option KJson → String × Int
  | none => ("", -100)
  | some j =>
    let n0 := j.btle_common_name
    let n1 := if n0 = "" then j.btle_advertised_name else n0
    let n2 := if n1 = "" then j.commonname else n1
    let name := if n2 = "" then j.basename else n2
    (name, j.last_signal)

/-- `_parse_bt_device(device_json)`: returns `(name, rssi)` with the
classic-Bluetooth then generic name fallback chain. -/
def parse_bt_device : Option KJson → String × Int
  | none => ("", -100)
  | some j =>
    let n0 := j.bt_name
    let n1 := if n0 = "" then j.commonname else n0
    let name := if n1 = "" then j.basename else n1
    (name, j.last_signal)

/-- Python `str.upper` (ASCII), applied to canonical hardware addresses.
`devmac.upper() if devmac else ""` agrees with this on the empty string. -/
def pyUpper (s : String) : String := String.mk (s.data.map Char.toUpper)

/-- `DeviceRecord` dataclass of the exporter: a device ready for WiGLE
export.  `first_seen` is the epoch-seconds timestamp of the underlying
`datetime` (Python `datetime.timestamp()`), modelled exactly as `ℚ`. -/
structure DeviceRecord where
  mac : String
  name : String
  auth_mode : String
  first_seen : ℚ
  channel : Int
  rssi : Int
  latitude : ℚ
  longitude : ℚ
  altitude : ℚ := 0
  accuracy : ℚ := 0
  device_type : String := "WIFI"
  phy_name : String := "IEEE802.11"
deriving DecidableEq, Repr

/-! ## Kismet capture database

The relational store read (and, for the filter processor, mutated) by the
pipeline: a `devices` table keyed by `key` with hardware address, JSON
blob, first-seen epoch seconds, averaged position and PHY name; a
`packets` table with source/destination address, position and signal; an
optional `datasources` table whose rows correlate to an address through
`json_extract(source_json, ".kismet.datasource.source_mac")` (modelled as
the extracted address itself).
-/

/-- One row of the `devices` table. -/
structure DeviceRow where
  key : Int
  devmac : String
  device : Option KJson
  first_time : ℚ
  avg_lat : ℚ
  avg_lon : ℚ
  phyname : String
deriving DecidableEq, Repr

/-- One row of the `packets` table. -/
structure PacketRow where
  sourcemac : String
  destmac : String
  lat : ℚ
  lon : ℚ
  signal : Int
deriving DecidableEq, Repr

/-- One row of the `datasources` table (only the extracted source MAC is
ever consulted). -/
structure DsRow where
  source_mac : String
deriving DecidableEq, Repr

/-- A Kismet capture database. -/
structure KismetDB where
  devices : List DeviceRow
  packets : List PacketRow
  datasources : List DsRow
deriving DecidableEq, Repr

/-! ## Capture extraction (exporter)

`extract_wifi_devices`, `extract_btle_devices`, `extract_bt_devices`.
The SQL `SELECT ... WHERE` clauses become list filters in table order.
`now` models `datetime.now()` used when `first_time` is falsy.
-/

/-- Build the `DeviceRecord` shared by the three device-table queries. -/
def mkAvgRecord (now : ℚ) (nameRssi : String × Int) (auth ty phy : String)
    (channel : Int) (d : DeviceRow) : DeviceRecord :=
  { mac := pyUpper d.devmac
    name := nameRssi.1
    auth_mode := auth
    first_seen := if d.first_time ≠ 0 then d.first_time else now
    channel := channel
    rssi := nameRssi.2
    latitude := d.avg_lat
    longitude := d.avg_lon
    altitude := 0
    accuracy := 0
    device_type := ty
    phy_name := phy }

/-- `extract_wifi_devices(db_path)`: WiFi rows whose averaged position is
non-zero (the SQL filter; the in-loop `avg_lat == 0 or avg_lon == 0`
re-check is subsumed by it), decoded through `_parse_wifi_device`. -/
def extract_wifi_devices (db : KismetDB) (now : ℚ) : List DeviceRecord :=
  (db.devices.filter (fun d =>
      d.phyname = "IEEE802.11" ∧ d.avg_lat ≠ 0 ∧ d.avg_lon ≠ 0)).map
    (fun d =>
      let parsed := parse_wifi_device d.device
      mkAvgRecord now (parsed.1, parsed.2.2.2) parsed.2.1 "WIFI" "IEEE802.11"
        parsed.2.2.1 d)

/-- The first BTLE query: device-table rows with non-zero averaged
position. -/
def btleAvgQuery (db : KismetDB) : List DeviceRow :=
  db.devices.filter (fun d =>
    d.phyname = "BTLE" ∧ d.avg_lat ≠ 0 ∧ d.avg_lon ≠ 0)

/-- The second BTLE query:
`SELECT DISTINCT d.*, p.lat, p.lon, p.signal FROM devices d JOIN packets p
ON p.sourcemac = d.devmac WHERE d.phyname = "BTLE" AND (d.avg_lat = 0 OR
d.avg_lat IS NULL) AND p.lat != 0 AND p.lon != 0 GROUP BY d.devmac`.
SQLite returns one row per `devmac` group, with the bare packet columns
taken from an arbitrarily chosen row of the group; this is modelled
deterministically as the first qualifying packet in table order, and the
`devmac` grouping coincides with per-device iteration when device MACs
are unique (the theorems that need this assume it).  `IS NULL` is
subsumed by `= 0` under the NULL-as-0 convention. -/
def btleFallbackQuery (db : KismetDB) : List (DeviceRow × PacketRow) :=
  (db.devices.filter (fun d => d.phyname = "BTLE" ∧ d.avg_lat = 0)).filterMap
    (fun d =>
      (db.packets.find? (fun p =>
          p.sourcemac = d.devmac ∧ p.lat ≠ 0 ∧ p.lon ≠ 0)).map
        (fun p => (d, p)))

/-- The record built from one fallback row: packet position, packet
signal when non-zero (else the blob's RSSI). -/
def mkBtleFallbackRecord (now : ℚ) (dp : DeviceRow × PacketRow) :
    DeviceRecord :=
  let parsed := parse_btle_device dp.1.device
  { mac := pyUpper dp.1.devmac
    name := parsed.1
    auth_mode := "BLE"
    first_seen := if dp.1.first_time ≠ 0 then dp.1.first_time else now
    channel := 0
    rssi := if dp.2.signal ≠ 0 then dp.2.signal else parsed.2
    latitude := dp.2.lat
    longitude := dp.2.lon
    altitude := 0
    accuracy := 0
    device_type := "BLE"
    phy_name := "BTLE" }

/-- The exporter's second BTLE loop: walk the fallback rows, skipping any
whose upper-cased MAC was already seen (in the first query's results or
earlier in this loop). -/
def btlePhase2 (now : ℚ) (rows : List (DeviceRow × PacketRow))
    (acc : List DeviceRecord) (seen : List String) : List DeviceRecord :=
  match rows with
  | [] => acc
  | dp :: rest =>
    let macU := pyUpper dp.1.devmac
    if macU ∈ seen then btlePhase2 now rest acc seen
    else
      btlePhase2 now rest (acc ++ [mkBtleFallbackRecord now dp])
        (seen ++ [macU])

/-- `extract_btle_devices(db_path)`: device-table rows with averaged GPS,
then the packet-table GPS fallback for devices without averaged GPS. -/
def extract_btle_devices (db : KismetDB) (now : ℚ) : List DeviceRecord :=
  let phase1 := (btleAvgQuery db).map (fun d =>
    mkAvgRecord now (parse_btle_device d.device) "BLE" "BLE" "BTLE" 0 d)
  btlePhase2 now (btleFallbackQuery db) phase1 (phase1.map (fun r => r.mac))

/-- `extract_bt_devices(db_path)`: classic-Bluetooth rows with non-zero
averaged position; no packet fallback exists for this family. -/
def extract_bt_devices (db : KismetDB) (now : ℚ) : List DeviceRecord :=
  (db.devices.filter (fun d =>
      d.phyname = "Bluetooth" ∧ d.avg_lat ≠ 0 ∧ d.avg_lon ≠ 0)).map
    (fun d =>
      mkAvgRecord now (parse_bt_device d.device) "BT" "BT" "Bluetooth" 0 d)

/-! ## Rate limiting (exporter)

`apply_rate_limiting(devices)` keeps, per `(MAC, whole-second timestamp)`
key, the record with the strongest signal.  The Python `dict` preserves
the insertion order of keys and updating an existing key keeps its
position; this is modelled by an association list with in-place value
replacement and appending of new keys.
-/

/-- Python `int(x)` on a real value: truncation toward zero. -/
def pyInt (q : ℚ) : Int := if q < 0 then -(Rat.floor (-q)) else Rat.floor q

/-- The grouping key `(device.mac, int(device.first_seen.timestamp()))`. -/
def rlKey (d : DeviceRecord) : String × Int := (d.mac, pyInt d.first_seen)

/-- Association-list lookup (model of `key in seen_keys` /
`seen_keys[key]`). -/
def rlLookup (m : List ((String × Int) × DeviceRecord))
    (k : String × Int) : Option DeviceRecord :=
  match m with
  | [] => none
  | e :: rest => if e.1 = k then some e.2 else rlLookup rest k

/-- In-place value replacement for an existing key (model of
`seen_keys[key] = device` on a present key). -/
def rlReplace (m : List ((String × Int) × DeviceRecord))
    (k : String × Int) (d : DeviceRecord) :
    List ((String × Int) × DeviceRecord) :=
  match m with
  | [] => []
  | e :: rest => if e.1 = k then (e.1, d) :: rest else e :: rlReplace rest k d

/-- One loop iteration of `apply_rate_limiting`: insert an unseen key,
else keep the observation with the larger `rssi` (strictly larger: ties
keep the earlier record). -/
def rlStep (m : List ((String × Int) × DeviceRecord)) (d : DeviceRecord) :
    List ((String × Int) × DeviceRecord) :=
  match rlLookup m (rlKey d) with
  | none => m ++ [(rlKey d, d)]
  | some b => if d.rssi > b.rssi then rlReplace m (rlKey d) d else m

/-- `apply_rate_limiting(devices)`: fold the loop, then
`list(seen_keys.values())`. -/
def apply_rate_limiting (devices : List DeviceRecord) : List DeviceRecord :=
  (devices.foldl rlStep []).map (fun e => e.2)

/-- One comparison step of the reference selector: keep the incumbent
unless the new record's signal is strictly greater. -/
def rlBetter (acc : Option DeviceRecord) (d : DeviceRecord) :
    Option DeviceRecord :=
  match acc with
  | none => some d
  | some b => if d.rssi > b.rssi then some d else some b

/-- Reference selector used to state the rate-limiter claims: the record
of a group with the numerically greatest signal, the earliest such record
on ties (`foldl` keeps the incumbent unless strictly beaten). -/
def bestOf (l : List DeviceRecord) : Option DeviceRecord :=
  l.foldl rlBetter none

/-! ## WiGLE CSV formatting (exporter)

`_escape_csv`, `format_device_row` and the fixed two-line header.  The
local timezone of `datetime.fromtimestamp`/`strftime` is modelled as UTC
and `%.6f`/`%.1f` rounding as round-half-even on exact rationals; no
claim below depends on either choice.
-/

/-- Does the value contain a comma, double quote or newline? -/
def hasSpecialChar (l : List Char) : Bool :=
  l.any (fun c => c == ',' || c == '"' || c == '\n')

/-- Double every double quote (`value.replace('"', '""')`). -/
def dupQuotes : List Char → List Char
  | [] => []
  | c :: r => if c = '"' then '"' :: '"' :: dupQuotes r else c :: dupQuotes r

/-- `_escape_csv(value)`: empty stays empty; a value containing a comma,
quote or newline is quote-wrapped with internal quotes doubled; anything
else is emitted bare. -/
def escape_csv (value : String) : String :=
  if value = "" then ""
  else if hasSpecialChar value.data then
    String.mk ('"' :: (dupQuotes value.data ++ ['"']))
  else value

/-- Left-pad a digit string with zeros to the given width. -/
def padZeros (w : Nat) (s : String) : String :=
  if s.length ≥ w then s
  else String.mk (List.replicate (w - s.length) '0') ++ s

/-- Round half to even (Python float formatting's rounding mode). -/
def roundHalfEven (q : ℚ) : Int :=
  let fl := Rat.floor q
  let frac := q - fl
  if frac < 1 / 2 then fl
  else if 1 / 2 < frac then fl + 1
  else if fl % 2 = 0 then fl else fl + 1

/-- Fixed-point rendering with `digits` decimal places (model of Python
f-string `:.6f` / `:.1f` on the exact value). -/
def formatFixed (digits : Nat) (q : ℚ) : String :=
  let scaled := roundHalfEven (q * ((10 : ℚ) ^ digits))
  let a := scaled.natAbs
  let ip := a / 10 ^ digits
  let fp := a % 10 ^ digits
  (if scaled < 0 then "-" else "") ++ toString ip ++ "." ++
    padZeros digits (toString fp)

/-- Two-digit zero padding for timestamp components. -/
def pad2 (n : Nat) : String := if n < 10 then "0" ++ toString n else toString n

/-- Four-digit zero padding for the year. -/
def pad4 (n : Int) : String :=
  (if n < 0 then "-" else "") ++ padZeros 4 (toString n.natAbs)

/-- Civil date from days since the Unix epoch (standard era-based
algorithm): returns `(year, month, day)`. -/
def civilFromDays (z0 : Int) : Int × Int × Int :=
  let z := z0 + 719468
  let era := Int.fdiv z 146097
  let doe := z - era * 146097
  let yoe := Int.fdiv
    (doe - Int.fdiv doe 1460 + Int.fdiv doe 36524 - Int.fdiv doe 146096) 365
  let y := yoe + era * 400
  let doy := doe - (365 * yoe + Int.fdiv yoe 4 - Int.fdiv yoe 100)
  let mp := Int.fdiv (5 * doy + 2) 153
  let d := doy - Int.fdiv (153 * mp + 2) 5 + 1
  let m := mp + (if mp < 10 then 3 else -9)
  (y + (if m ≤ 2 then 1 else 0), m, d)

/-- `first_seen.strftime("%Y-%m-%d %H:%M:%S")` (timezone modelled as
UTC). -/
def formatTimestamp (t : ℚ) : String :=
  let s : Int := Rat.floor t
  let days := Int.fdiv s 86400
  let secs := (s - days * 86400).toNat
  let c := civilFromDays days
  pad4 c.1 ++ "-" ++ pad2 c.2.1.toNat ++ "-" ++ pad2 c.2.2.toNat ++ " " ++
    pad2 (secs / 3600) ++ ":" ++ pad2 (secs % 3600 / 60) ++ ":" ++
    pad2 (secs % 60)

/-- `format_device_row(device)`: the comma-joined WiGLE CSV data row. -/
def format_device_row (d : DeviceRecord) : String :=
  d.mac ++ "," ++ escape_csv d.name ++ "," ++ d.auth_mode ++ "," ++
    formatTimestamp d.first_seen ++ "," ++ toString d.channel ++ "," ++
    toString d.rssi ++ "," ++ formatFixed 6 d.latitude ++ "," ++
    formatFixed 6 d.longitude ++ "," ++ formatFixed 1 d.altitude ++ "," ++
    formatFixed 1 d.accuracy ++ "," ++ d.device_type

/-! ## CSV re-parsing (specification side)

An RFC-4180-style splitter used to state the round-trip claim: split on
commas, treating a `"`-opened field as quoted with `""` unescaping. -/

/-- CSV splitting state machine; `cur` is the field accumulated so far
and the state is 0 outside quotes, 1 inside quotes, 2 just after a quote
seen inside quotes (a second `"` is an escaped quote, anything else ends
the quoted run).  Each step consumes exactly one character, so with
`fuel = input.length` the fuel is never exhausted and stays equal to the
remaining input length throughout. -/
def splitCsvAux : Nat → Nat → List Char → List Char → List (List Char)
  | 0, _, cur, _ => [cur]
  | _ + 1, _, cur, [] => [cur]
  | fuel + 1, st, cur, c :: rest =>
    if st = 1 then
      if c = '"' then splitCsvAux fuel 2 cur rest
      else splitCsvAux fuel 1 (cur ++ [c]) rest
    else if st = 2 then
      if c = '"' then splitCsvAux fuel 1 (cur ++ ['"']) rest
      else if c = ',' then cur :: splitCsvAux fuel 0 [] rest
      else splitCsvAux fuel 0 (cur ++ [c]) rest
    else
      if c = ',' then cur :: splitCsvAux fuel 0 [] rest
      else if c = '"' then splitCsvAux fuel 1 cur rest
      else splitCsvAux fuel 0 (cur ++ [c]) rest

/-- Split a CSV line on commas, respecting RFC-4180 quoting. -/
def splitCsvChars (s : List Char) : List (List Char) :=
  splitCsvAux s.length 0 [] s

/-- Join fields with commas (the shape of a CSV record). -/
def joinC : List (List Char) → List Char
  | [] => []
  | [f] => f
  | f :: fs => f ++ ',' :: joinC fs

/-! ## Naive comma split (processor side)

Python `line.split(",")`: split on every comma, no quote awareness. -/

/-- `str.split(",")` on a character list. -/
def splitOnComma : List Char → List (List Char)
  | [] => [[]]
  | c :: rest =>
    if c = ',' then [] :: splitOnComma rest
    else
      match splitOnComma rest with
      | [] => [[c]]
      | f :: fs => (c :: f) :: fs

/-- `line.split(",")` on strings. -/
def pySplitComma (line : String) : List String :=
  (splitOnComma line.data).map (fun cs => String.mk cs)

/-! ## Filter processor

`warpie-filter-processor.py`: `extract_ssids_from_device`,
`process_kismetdb` (with its transactional delete batch) and
`process_wigle_csv`.  SQLite connection semantics are modelled
explicitly: staged `DELETE`s act on the in-memory connection state and
reach the on-disk database only at `conn.commit()`; closing or dropping
the connection without a commit discards them.  A `sqlite3.Error` can be
raised at the initial `SELECT` (operation index 0), at any staged
`DELETE` (indices 1..), or at the final `COMMIT`; this is modelled by an
outcome oracle indexed by operation position.  An `OperationalError` on a
`datasources` delete is caught and skipped (`except
sqlite3.OperationalError: pass`); any other error aborts to the outer
handler. -/

/-- WiGLE CSV fixed column positions. -/
def WIGLE_MAC_COL : Nat := 0

/-- Column index of the SSID field in a WiGLE CSV row. -/
def WIGLE_SSID_COL : Nat := 1

/-- One entry of `ProcessingResult.matches`. -/
structure MatchEntry where
  ssid : String
  mac : String
  rule : String
  rule_type : String
deriving DecidableEq, Repr

/-- `ProcessingResult` dataclass of the filter processor. -/
structure ProcessingResult where
  file_path : String
  original_count : Nat := 0
  removed_count : Nat := 0
  «matches» : List MatchEntry := []
  success : Bool := true
  error : String := ""
deriving DecidableEq, Repr

/-- `extract_ssids_from_device(device_json)`: all advertised SSIDs (in
map order, empty ones skipped) followed by probed SSIDs not already
collected. -/
def extract_ssids_from_device : Option KJson → List String
  | none => []
  | some j =>
    let adv := (j.advertised.map (fun a => a.ssid)).filter (fun s => s ≠ "")
    j.probed.foldl
      (fun acc s => if s ≠ "" ∧ s ∉ acc then acc ++ [s] else acc) adv

/-- The inner SSID loop of `process_kismetdb`: the first SSID of the
device that some rule matches, with that rule (`break` after the first
hit). -/
def firstSsidMatch (rules : List FilterRule) :
    List String → Option (String × FilterRule)
  | [] => none
  | s :: rest =>
    match find_matching_rule s rules with
    | some r => some (s, r)
    | none => firstSsidMatch rules rest

/-- One device of the scan phase of `process_kismetdb`: if some SSID of
the device matches, append its key, MAC and match report. -/
def kdbScanStep (rules : List FilterRule)
    (acc : List Int × List String × List MatchEntry) (d : DeviceRow) :
    List Int × List String × List MatchEntry :=
  match firstSsidMatch rules (extract_ssids_from_device d.device) with
  | some sr =>
    (acc.1 ++ [d.key], acc.2.1 ++ [d.devmac],
      acc.2.2 ++ [⟨sr.1, d.devmac, sr.2.value, sr.2.match_type⟩])
  | none => acc

/-- The scan phase of `process_kismetdb`: walk the WiFi device rows and
collect `keys_to_remove`, `macs_to_remove` and the match reports. -/
def kdbScan (db : KismetDB) (rules : List FilterRule) :
    List Int × List String × List MatchEntry :=
  (db.devices.filter (fun d => d.phyname = "IEEE802.11")).foldl
    (kdbScanStep rules) ([], [], [])

/-- A staged `DELETE` statement of `process_kismetdb`. -/
inductive DbOp where
  | delDevice (key : Int)
  | delPackets (mac : String)
  | delDatasources (mac : String)
deriving DecidableEq, Repr

/-- Effect of one `DELETE` on the connection's view of the database. -/
def applyOp (db : KismetDB) : DbOp → KismetDB
  | DbOp.delDevice k => { db with devices := db.devices.filter (fun d => d.key ≠ k) }
  | DbOp.delPackets m =>
    { db with packets := db.packets.filter (fun p => ¬(p.sourcemac = m ∨ p.destmac = m)) }
  | DbOp.delDatasources m =>
    { db with datasources := db.datasources.filter (fun r => r.source_mac ≠ m) }

/-- The delete batch, in the order the code stages it: device rows, then
packet rows, then (best-effort) datasource rows. -/
def deleteOps (keys : List Int) (macs : List String) : List DbOp :=
  keys.map DbOp.delDevice ++ macs.map DbOp.delPackets ++
    macs.map DbOp.delDatasources

/-- All deletes applied in order. -/
def applyOps (db : KismetDB) (ops : List DbOp) : KismetDB :=
  ops.foldl applyOp db

/-- Outcome of one database operation: success, an `OperationalError`
(swallowed only for `datasources` deletes), or any other
`sqlite3.Error`. -/
inductive OpOutcome where
  | ok
  | opErr
  | fatal
deriving DecidableEq, Repr

/-- The error-free oracle. -/
def noErrOracle : Nat → OpOutcome := fun _ => OpOutcome.ok

/-- Execute the staged deletes against the in-memory connection state,
starting at operation index `i`; `none` models a raised `sqlite3.Error`
(the uncommitted changes are discarded with the connection).  Returns the
final in-memory state and the next operation index. -/
def execOps (oracle : Nat → OpOutcome) :
    Nat → KismetDB → List DbOp → Option (KismetDB × Nat)
  | i, mem, [] => some (mem, i)
  | i, mem, op :: rest =>
    match oracle i, op with
    | OpOutcome.ok, _ => execOps oracle (i + 1) (applyOp mem op) rest
    | OpOutcome.opErr, DbOp.delDatasources _ => execOps oracle (i + 1) mem rest
    | _, _ => none

/-- `process_kismetdb(db_path, rules, dry_run)`.  Operation index 0 is
the connect-and-`SELECT`; on its failure the handler reports
`success = False` with nothing staged.  Otherwise the scan runs in
memory; in mutating mode with a non-empty batch the deletes are staged
via `execOps` and committed by a single `conn.commit()` (the operation
after the last delete), whose failure likewise leaves the on-disk state
untouched.  The returned `KismetDB` is the on-disk state after the
call. -/
def process_kismetdb (db : KismetDB) (rules : List FilterRule)
    (dry_run : Bool) (oracle : Nat → OpOutcome) :
    KismetDB × ProcessingResult :=
  if oracle 0 ≠ OpOutcome.ok then
    (db, { file_path := "kismetdb", success := false, error := "Database error" })
  else
    let scan := kdbScan db rules
    let res0 : ProcessingResult :=
      { file_path := "kismetdb"
        original_count :=
          (db.devices.filter (fun d => d.phyname = "IEEE802.11")).length
        removed_count := scan.1.length
        «matches» := scan.2.2 }
    if dry_run ∨ scan.1 = [] then (db, res0)
    else
      match execOps oracle 1 db (deleteOps scan.1 scan.2.1) with
      | none => (db, { res0 with success := false, error := "Database error" })
      | some memi =>
        if oracle memi.2 = OpOutcome.ok then (memi.1, res0)
        else (db, { res0 with success := false, error := "Database error" })

/-- One data-line step of `process_wigle_csv`: split the raw line on
every comma; if the SSID column exists, test it against the rules and
either record the match (dropping the line) or keep the line; short
lines are kept. -/
def wigleCsvStep (rules : List FilterRule)
    (acc : List String × List MatchEntry) (line : String) :
    List String × List MatchEntry :=
  let parts := pySplitComma line
  if WIGLE_SSID_COL < parts.length then
    let ssid := parts.getD WIGLE_SSID_COL ""
    match find_matching_rule ssid rules with
    | some rule =>
      let mac := if WIGLE_MAC_COL < parts.length then parts.getD WIGLE_MAC_COL "" else ""
      (acc.1, acc.2 ++ [⟨ssid, mac, rule.value, rule.match_type⟩])
    | none => (acc.1 ++ [line], acc.2)
  else (acc.1 ++ [line], acc.2)

/-- `process_wigle_csv(csv_path, rules, dry_run)` on the file's lines.
The first component is the written file content: `some` when the code
rewrites the file (mutating mode with at least one removed row), `none`
when the file is left untouched (its mtime unchanged).  Fewer than two
lines is reported as "File too short" with `success` left `True`, as in
the code. -/
def process_wigle_csv (lines : List String) (rules : List FilterRule)
    (dry_run : Bool) : Option (List String) × ProcessingResult :=
  if lines.length < 2 then
    (none, { file_path := "csv", error := "File too short (missing header)" })
  else
    let header := lines.take 2
    let dataLines := lines.drop 2
    let fm := dataLines.foldl (wigleCsvStep rules) ([], [])
    let removed := dataLines.length - fm.1.length
    let res : ProcessingResult :=
      { file_path := "csv"
        original_count := dataLines.length
        removed_count := removed
        «matches» := fm.2 }
    if ¬dry_run ∧ removed > 0 then (some (header ++ fm.1), res)
    else (none, res)

/-! ## Sample data

Concrete rows and records used to instantiate the theorems below on
executable inputs. -/

/-- A dynamic exclusion rule matching the name `Bad` exactly. -/
def sampleRule : FilterRule :=
  { value := "Bad", match_type := "exact", description := "" }

/-- A device blob advertising the SSID `Bad` with WPA2 capability. -/
def sampleWifiJson : KJson :=
  { advertised := [{ ssid := "Bad", crypt_set := 0x400 }] }

/-- A WiFi device row with zero averaged position. -/
def sampleWifiDev : DeviceRow :=
  { key := 1, devmac := "aa:bb", device := some sampleWifiJson,
    first_time := 100, avg_lat := 0, avg_lon := 0, phyname := "IEEE802.11" }

/-- A BTLE device row with zero averaged position. -/
def sampleBtleDev : DeviceRow :=
  { key := 2, devmac := "cc:dd", device := none, first_time := 100,
    avg_lat := 0, avg_lon := 0, phyname := "BTLE" }

/-- A positioned packet row for the WiFi device. -/
def samplePacket : PacketRow :=
  { sourcemac := "aa:bb", destmac := "", lat := 47, lon := -122,
    signal := -60 }

/-- A positioned packet row for the BTLE device. -/
def samplePacketB : PacketRow :=
  { sourcemac := "cc:dd", destmac := "", lat := 47, lon := -122,
    signal := -60 }

/-- A capture database with one WiFi and one BTLE device, both with zero
averaged position but positioned packets. -/
def sampleDb : KismetDB :=
  { devices := [sampleWifiDev, sampleBtleDev],
    packets := [samplePacket, samplePacketB],
    datasources := [{ source_mac := "aa:bb" }] }

/-- An oracle that fails the first staged delete: the initial `SELECT`
(index 0) succeeds, every later operation raises a `sqlite3.Error`. -/
def sampleFailOracle : Nat → OpOutcome :=
  fun i => if i = 0 then OpOutcome.ok else OpOutcome.fatal

/-- A device record whose name contains a comma (so the Export Formatter
quotes it). -/
def sampleDevRecord : DeviceRecord :=
  { mac := "AA:BB:CC:DD:EE:FF", name := "Guest, Network",
    auth_mode := "OPEN", first_seen := 1700000000, channel := 6,
    rssi := -65, latitude := 476062 / 10000, longitude := -1223321 / 10000,
    altitude := 0, accuracy := 0, device_type := "WIFI",
    phy_name := "IEEE802.11" }

/-! ## Theorems -/

theorem globStar_congr {f g : List Char → Bool} (h : ∀ t, f t = g t) :
    ∀ s, globStar f s = globStar g s := by
  intro s
  induction s with
  | nil => simp [globStar, h]
  | cons c s ih => simp [globStar, h, ih]

theorem noBracket_cons {c : Char} {p : List Char}
    (h : noBracket (c :: p) = true) : ¬(c = '[') ∧ noBracket p = true := by
  simp [noBracket, List.contains_cons] at h ⊢
  exact ⟨fun hc => h.1 (by simp [hc]), h.2⟩

theorem fnGlobAux_eq_specGlobCS :
    ∀ (fuel : Nat) (p s : List Char), p.length ≤ fuel → noBracket p = true →
      fnGlobAux fuel p s = specGlobCS p s := by
  intro fuel
  induction fuel with
  | zero =>
    intro p s hl _
    have hp : p = [] := List.length_eq_zero.mp (Nat.le_zero.mp hl)
    subst hp
    simp [fnGlobAux, specGlobCS]
  | succ fuel ih =>
    intro p s hl hnb
    cases p with
    | nil => simp [fnGlobAux, specGlobCS]
    | cons c ps =>
      obtain ⟨hcnb, hnb'⟩ := noBracket_cons hnb
      have hl' : ps.length ≤ fuel := by
        simpa using Nat.succ_le_succ_iff.mp (by simpa using hl)
      by_cases hc : c = '*'
      · subst hc
        simp only [fnGlobAux, specGlobCS, if_pos rfl]
        exact globStar_congr (fun t => ih ps t hl' hnb') s
      · simp only [fnGlobAux, specGlobCS, if_neg hc, if_neg hcnb]
        cases s with
        | nil => rfl
        | cons d s2 => simp [ih ps s2 hl' hnb']

theorem fnGlob_eq_specGlobCS {p s : List Char} (h : noBracket p = true) :
    fnGlob p s = specGlobCS p s :=
  fnGlobAux_eq_specGlobCS p.length p s le_rfl h

/-- C3, counterexample: the claim asserts pattern matching is
case-insensitive, but both matchers call `fnmatch.fnmatch`, which on the
POSIX deployment platform is case-sensitive.  At the concrete input
`name = "IPHONE Hotspot"`, `pattern = "iphone*"`, the claimed
case-insensitive glob semantics (`specGlobCI`) matches while the code's
matchers (filter processor and exporter alike) do not. -/
theorem C3_counterexample :
    matches_pattern "IPHONE Hotspot"
        { value := "iphone*", match_type := "pattern", description := "" } = false ∧
    matches_ssid_exclusion "IPHONE Hotspot" [("iphone*", "pattern")] = false ∧
    specGlobCI "iphone*".data "IPHONE Hotspot".data = true := by
  refine ⟨?_, ?_, ?_⟩ <;> decide

/-- C3 (amended): for every name and every `match_type = "pattern"` rule
whose pattern contains no `[` character class, both the Filter Remover's
matcher and the exporter's SSID-exclusion matcher decide the match by
glob semantics where `*` matches any run of characters and `?` exactly
one character, compared case-SENSITIVELY (Python `fnmatch.fnmatch` under
POSIX `normcase`). -/
theorem C3_pattern_match_is_case_sensitive_glob :
    ∀ (name pat desc : String), noBracket pat.data = true →
      matches_pattern name
          { value := pat, match_type := "pattern", description := desc } =
        specGlobCS pat.data name.data ∧
      matches_ssid_exclusion name [(pat, "pattern")] =
        specGlobCS pat.data name.data := by
  intro name pat desc h
  constructor
  · show (if ("pattern" : String) = "exact" then name == pat
      else if ("pattern" : String) = "pattern" then fnGlob pat.data name.data
      else false) = specGlobCS pat.data name.data
    rw [if_neg (by decide), if_pos rfl]
    exact fnGlob_eq_specGlobCS h
  · have hrw : matches_ssid_exclusion name [(pat, "pattern")] =
        fnGlob pat.data name.data := by
      simp [matches_ssid_exclusion]
    rw [hrw]
    exact fnGlob_eq_specGlobCS h

/-- C3, witness: the amended equivalence applied at
`name = "iPhone Hotspot"`, `pattern = "iPhone*"`. -/
theorem C3_pattern_match_witness :
    matches_pattern "iPhone Hotspot"
        { value := "iPhone*", match_type := "pattern", description := "" } =
      specGlobCS "iPhone*".data "iPhone Hotspot".data ∧
    matches_ssid_exclusion "iPhone Hotspot" [("iPhone*", "pattern")] =
      specGlobCS "iPhone*".data "iPhone Hotspot".data :=
  C3_pattern_match_is_case_sensitive_glob "iPhone Hotspot" "iPhone*" ""
    (by decide)

theorem bestOf_toList_single (o : Option DeviceRecord) (d : DeviceRecord) :
    bestOf (o.toList ++ [d]) = rlBetter o d := by
  cases o <;> simp [bestOf, rlBetter]

theorem rlLookup_append_single
    (m : List ((String × Int) × DeviceRecord)) (k0 k : String × Int)
    (d : DeviceRecord) :
    rlLookup (m ++ [(k0, d)]) k =
      match rlLookup m k with
      | some v => some v
      | none => if k0 = k then some d else none := by
  induction m with
  | nil => simp [rlLookup]
  | cons e rest ih =>
    by_cases he : e.1 = k
    · simp [rlLookup, he]
    · simp [rlLookup, he, ih]

theorem rlLookup_rlReplace_self
    (m : List ((String × Int) × DeviceRecord)) (k : String × Int)
    (d : DeviceRecord) :
    rlLookup (rlReplace m k d) k =
      match rlLookup m k with
      | some _ => some d
      | none => none := by
  induction m with
  | nil => simp [rlReplace, rlLookup]
  | cons e rest ih =>
    by_cases he : e.1 = k
    · simp [rlReplace, rlLookup, he]
    · simp [rlReplace, rlLookup, he, ih]

theorem rlLookup_rlReplace_other
    (m : List ((String × Int) × DeviceRecord)) (k0 k : String × Int)
    (d : DeviceRecord) (hk : k ≠ k0) :
    rlLookup (rlReplace m k0 d) k = rlLookup m k := by
  induction m with
  | nil => simp [rlReplace]
  | cons e rest ih =>
    by_cases he : e.1 = k0
    · have hek : ¬(e.1 = k) := by
        rw [he]; exact fun hh => hk hh.symm
      have hk0 : ¬(k0 = k) := fun hh => hk hh.symm
      simp [rlReplace, rlLookup, he, hek, hk0]
    · by_cases hek : e.1 = k
      · have hkk0 : ¬(k = k0) := hk
        simp [rlReplace, rlLookup, he, hek, hkk0]
      · simp [rlReplace, rlLookup, he, hek, ih]

theorem rlLookup_rlStep (m : List ((String × Int) × DeviceRecord))
    (d : DeviceRecord) (k : String × Int) :
    rlLookup (rlStep m d) k =
      if k = rlKey d then bestOf ((rlLookup m k).toList ++ [d])
      else rlLookup m k := by
  by_cases hk : k = rlKey d
  · rw [if_pos hk, hk, bestOf_toList_single]
    unfold rlStep
    cases hl : rlLookup m (rlKey d) with
    | none =>
      rw [rlLookup_append_single, hl]
      simp [rlBetter]
    | some b =>
      dsimp only
      by_cases hgt : d.rssi > b.rssi
      · rw [if_pos hgt, rlLookup_rlReplace_self, hl]
        simp [rlBetter, hgt]
      · rw [if_neg hgt, hl]
        simp [rlBetter, hgt]
  · rw [if_neg hk]
    unfold rlStep
    cases hl : rlLookup m (rlKey d) with
    | none =>
      rw [rlLookup_append_single]
      have h2 : ¬(rlKey d = k) := fun hh => hk hh.symm
      cases hmk : rlLookup m k <;> simp [h2]
    | some b =>
      dsimp only
      by_cases hgt : d.rssi > b.rssi
      · rw [if_pos hgt]
        exact rlLookup_rlReplace_other m (rlKey d) k d hk
      · rw [if_neg hgt]

theorem rlLookup_foldl :
    ∀ (xs : List DeviceRecord) (m : List ((String × Int) × DeviceRecord))
      (k : String × Int),
      rlLookup (List.foldl rlStep m xs) k =
        List.foldl rlBetter (rlLookup m k)
          (xs.filter (fun d => rlKey d = k)) := by
  intro xs
  induction xs with
  | nil => intro m k; simp
  | cons d xs ih =>
    intro m k
    rw [List.foldl_cons, ih]
    by_cases hk : rlKey d = k
    · rw [List.filter_cons_of_pos (by simp [hk]), List.foldl_cons,
        rlLookup_rlStep, if_pos hk.symm, bestOf_toList_single]
    · rw [List.filter_cons_of_neg (by simp [hk]), rlLookup_rlStep,
        if_neg (fun hh => hk hh.symm)]

theorem rl_entries_filter (m : List ((String × Int) × DeviceRecord))
    (k : String × Int) (hwf : ∀ e ∈ m, e.1 = rlKey e.2)
    (hnd : (m.map Prod.fst).Nodup) :
    (m.map Prod.snd).filter (fun d => rlKey d = k) = (rlLookup m k).toList := by
  induction m with
  | nil => simp [rlLookup]
  | cons e rest ih =>
    have hwf' : ∀ e2 ∈ rest, e2.1 = rlKey e2.2 :=
      fun e2 he2 => hwf e2 (by simp [he2])
    have hke : e.1 = rlKey e.2 := hwf e (by simp)
    rw [List.map_cons] at hnd
    have hnotin := (List.nodup_cons.mp hnd).1
    have hnd' := (List.nodup_cons.mp hnd).2
    by_cases hk : e.1 = k
    · have hfilter : (rest.map Prod.snd).filter (fun d => rlKey d = k) = [] := by
        rw [List.filter_eq_nil_iff]
        intro d hd
        obtain ⟨e2, he2, rfl⟩ := List.mem_map.mp hd
        simp only [decide_eq_true_eq]
        intro hph
        have h21 : e2.1 = e.1 := by rw [hwf' e2 he2, hph, hk]
        exact hnotin (h21 ▸ List.mem_map_of_mem Prod.fst he2)
      rw [List.map_cons, List.filter_cons_of_pos (by simp [← hke, hk]), hfilter]
      simp [rlLookup, hk]
    · rw [List.map_cons, List.filter_cons_of_neg (by simp [← hke, hk])]
      rw [ih hwf' hnd']
      simp [rlLookup, hk]

theorem rlLookup_eq_none (m : List ((String × Int) × DeviceRecord))
    (k : String × Int) :
    rlLookup m k = none ↔ ¬(k ∈ m.map Prod.fst) := by
  induction m with
  | nil => simp [rlLookup]
  | cons e rest ih =>
    by_cases he : e.1 = k
    · simp [rlLookup, he]
    · simp only [rlLookup, if_neg he, ih, List.map_cons, List.mem_cons]
      constructor
      · rintro h (h1 | h2)
        · exact he h1.symm
        · exact h h2
      · intro h
        exact fun h2 => h (Or.inr h2)

theorem rlReplace_keys (m : List ((String × Int) × DeviceRecord))
    (k : String × Int) (v : DeviceRecord) :
    (rlReplace m k v).map Prod.fst = m.map Prod.fst := by
  induction m with
  | nil => simp [rlReplace]
  | cons e rest ih =>
    by_cases he : e.1 = k
    · simp [rlReplace, he]
    · simp [rlReplace, he, ih]

theorem rlReplace_mem (m : List ((String × Int) × DeviceRecord))
    (k : String × Int) (v : DeviceRecord) :
    ∀ e ∈ rlReplace m k v, e ∈ m ∨ e = (k, v) := by
  induction m with
  | nil => simp [rlReplace]
  | cons e0 rest ih =>
    by_cases he : e0.1 = k
    · intro e he'
      rw [rlReplace, if_pos he] at he'
      rcases List.mem_cons.mp he' with rfl | hmem
      · right; rw [he]
      · left; exact List.mem_cons_of_mem _ hmem
    · intro e he'
      rw [rlReplace, if_neg he] at he'
      rcases List.mem_cons.mp he' with rfl | hmem
      · left; exact List.mem_cons_self _ _
      · rcases ih e hmem with h1 | h2
        · left; exact List.mem_cons_of_mem _ h1
        · right; exact h2

theorem rlStep_wf (m : List ((String × Int) × DeviceRecord))
    (d : DeviceRecord) (h : ∀ e ∈ m, e.1 = rlKey e.2) :
    ∀ e ∈ rlStep m d, e.1 = rlKey e.2 := by
  unfold rlStep
  cases hl : rlLookup m (rlKey d) with
  | none =>
    intro e he
    rcases List.mem_append.mp he with h1 | h2
    · exact h e h1
    · simp only [List.mem_singleton] at h2
      subst h2; rfl
  | some b =>
    by_cases hgt : d.rssi > b.rssi
    · simp only [if_pos hgt]
      intro e he
      rcases rlReplace_mem m (rlKey d) d e he with h1 | h2
      · exact h e h1
      · subst h2; rfl
    · simp only [if_neg hgt]
      exact h

theorem rlStep_keys_nodup (m : List ((String × Int) × DeviceRecord))
    (d : DeviceRecord) (hnd : (m.map Prod.fst).Nodup) :
    ((rlStep m d).map Prod.fst).Nodup := by
  unfold rlStep
  cases hl : rlLookup m (rlKey d) with
  | none =>
    have hni : ¬(rlKey d ∈ m.map Prod.fst) := (rlLookup_eq_none m _).mp hl
    rw [List.map_append]
    simp only [List.map_cons, List.map_nil]
    rw [List.nodup_append]
    exact ⟨hnd, List.nodup_singleton _,
      by intro a ha hb; simp at hb; subst hb; exact hni ha⟩
  | some b =>
    by_cases hgt : d.rssi > b.rssi
    · simp only [if_pos hgt]
      rw [rlReplace_keys]
      exact hnd
    · simp only [if_neg hgt]
      exact hnd

theorem rlFold_wf : ∀ (xs : List DeviceRecord)
    (m : List ((String × Int) × DeviceRecord)),
    (∀ e ∈ m, e.1 = rlKey e.2) →
    ∀ e ∈ List.foldl rlStep m xs, e.1 = rlKey e.2 := by
  intro xs
  induction xs with
  | nil => intro m h; simpa using h
  | cons d xs ih =>
    intro m h
    rw [List.foldl_cons]
    exact ih (rlStep m d) (rlStep_wf m d h)

theorem rlFold_keys_nodup : ∀ (xs : List DeviceRecord)
    (m : List ((String × Int) × DeviceRecord)),
    (m.map Prod.fst).Nodup →
    ((List.foldl rlStep m xs).map Prod.fst).Nodup := by
  intro xs
  induction xs with
  | nil => intro m h; simpa using h
  | cons d xs ih =>
    intro m h
    rw [List.foldl_cons]
    exact ih (rlStep m d) (rlStep_keys_nodup m d h)

/-- C5: the rate limiter keeps, for every `(address, whole-second
timestamp)` key, exactly the records of that group selected by `bestOf`:
the group's record with the numerically greatest signal, the first in
input order on ties (so one record when the group is inhabited, none
otherwise). -/
theorem C5_rate_limiter_keeps_strongest :
    ∀ (devices : List DeviceRecord) (k : String × Int),
      (apply_rate_limiting devices).filter (fun d => rlKey d = k) =
        (bestOf (devices.filter (fun d => rlKey d = k))).toList := by
  intro devices k
  unfold apply_rate_limiting
  rw [rl_entries_filter _ k (rlFold_wf devices [] (by simp))
    (rlFold_keys_nodup devices [] (by simp))]
  rw [rlLookup_foldl]
  rfl

theorem apply_rate_limiting_keys_nodup (xs : List DeviceRecord) :
    ((apply_rate_limiting xs).map rlKey).Nodup := by
  unfold apply_rate_limiting
  have hwf := rlFold_wf xs [] (by simp)
  have hnd := rlFold_keys_nodup xs [] (by simp)
  rw [List.map_map]
  have heq : (List.foldl rlStep [] xs).map (rlKey ∘ Prod.snd) =
      (List.foldl rlStep [] xs).map Prod.fst := by
    apply List.map_congr_left
    intro e he
    exact (hwf e he).symm
  rw [heq]
  exact hnd

theorem rlFold_fresh : ∀ (ys : List DeviceRecord)
    (m : List ((String × Int) × DeviceRecord)),
    (∀ y ∈ ys, rlLookup m (rlKey y) = none) →
    (ys.map rlKey).Nodup →
    List.foldl rlStep m ys = m ++ ys.map (fun d => (rlKey d, d)) := by
  intro ys
  induction ys with
  | nil => intro m _ _; simp
  | cons y ys ih =>
    intro m hfresh hnd
    rw [List.map_cons] at hnd
    have hstep : rlStep m y = m ++ [(rlKey y, y)] := by
      unfold rlStep
      rw [hfresh y (List.mem_cons_self y ys)]
    rw [List.foldl_cons, hstep, ih]
    · simp
    · intro z hz
      rw [rlLookup_append_single, hfresh z (List.mem_cons_of_mem y hz)]
      have hne : ¬(rlKey y = rlKey z) := by
        intro he
        exact (List.nodup_cons.mp hnd).1 (he ▸ List.mem_map_of_mem rlKey hz)
      simp [hne]
    · exact (List.nodup_cons.mp hnd).2

theorem rate_limiting_id_of_nodup (ys : List DeviceRecord)
    (h : (ys.map rlKey).Nodup) : apply_rate_limiting ys = ys := by
  unfold apply_rate_limiting
  rw [rlFold_fresh ys [] (fun y _ => rfl) h]
  simp [List.map_map]
  exact List.map_id ys

/-- C9: applying the rate limiter twice yields exactly the result of
applying it once, element order included — the output's grouping keys are
pairwise distinct, and the limiter is the identity on such lists. -/
theorem C9_rate_limiter_idempotent :
    ∀ xs : List DeviceRecord,
      apply_rate_limiting (apply_rate_limiting xs) = apply_rate_limiting xs :=
  fun xs => rate_limiting_id_of_nodup _ (apply_rate_limiting_keys_nodup xs)

theorem splitCsvAux_succ (fuel st : Nat) (cur : List Char) (c : Char)
    (rest : List Char) :
    splitCsvAux (fuel + 1) st cur (c :: rest) =
      if st = 1 then
        (if c = '"' then splitCsvAux fuel 2 cur rest
         else splitCsvAux fuel 1 (cur ++ [c]) rest)
      else if st = 2 then
        (if c = '"' then splitCsvAux fuel 1 (cur ++ ['"']) rest
         else if c = ',' then cur :: splitCsvAux fuel 0 [] rest
         else splitCsvAux fuel 0 (cur ++ [c]) rest)
      else
        (if c = ',' then cur :: splitCsvAux fuel 0 [] rest
         else if c = '"' then splitCsvAux fuel 1 cur rest
         else splitCsvAux fuel 0 (cur ++ [c]) rest) := rfl

theorem splitCsv_bare :
    ∀ (v s cur : List Char), hasSpecialChar v = false →
      splitCsvAux (v ++ s).length 0 cur (v ++ s) =
        splitCsvAux s.length 0 (cur ++ v) s := by
  intro v
  induction v with
  | nil => intro s cur _; simp
  | cons c v ih =>
    intro s cur h
    rw [show hasSpecialChar (c :: v) =
        (((c == ',' || c == '"') || c == '\n') || hasSpecialChar v) from rfl,
      Bool.or_eq_false_iff, Bool.or_eq_false_iff, Bool.or_eq_false_iff] at h
    obtain ⟨⟨⟨hcomma, hquote⟩, _⟩, hv⟩ := h
    have hcomma' : ¬c = ',' := by simpa using hcomma
    have hquote' : ¬c = '"' := by simpa using hquote
    show splitCsvAux ((v ++ s).length + 1) 0 cur (c :: (v ++ s)) =
      splitCsvAux s.length 0 (cur ++ c :: v) s
    rw [splitCsvAux_succ, if_neg (by decide), if_neg (by decide),
      if_neg hcomma', if_neg hquote', ih s (cur ++ [c]) hv]
    simp

theorem splitCsv_quoted :
    ∀ (v r cur : List Char),
      splitCsvAux ((dupQuotes v).length + 1 + r.length) 1 cur
          (dupQuotes v ++ '"' :: r) =
        splitCsvAux r.length 2 (cur ++ v) r := by
  intro v
  induction v with
  | nil =>
    intro r cur
    have h1 : (dupQuotes ([] : List Char)).length + 1 + r.length =
        r.length + 1 := by simp [dupQuotes]; omega
    rw [h1]
    show splitCsvAux (r.length + 1) 1 cur ('"' :: r) = _
    rw [splitCsvAux_succ, if_pos rfl, if_pos rfl]
    simp
  | cons c v ih =>
    intro r cur
    by_cases hc : c = '"'
    · subst hc
      rw [show dupQuotes ('"' :: v) = '"' :: '"' :: dupQuotes v from by
        simp [dupQuotes]]
      have h1 : ('"' :: '"' :: dupQuotes v).length + 1 + r.length =
          ((dupQuotes v).length + 1 + r.length) + 1 + 1 := by simp; omega
      rw [h1]
      show splitCsvAux ((dupQuotes v).length + 1 + r.length + 1 + 1) 1 cur
          ('"' :: '"' :: (dupQuotes v ++ '"' :: r)) = _
      rw [splitCsvAux_succ, if_pos rfl, if_pos rfl, splitCsvAux_succ,
        if_neg (by decide), if_pos rfl, if_pos rfl, ih r (cur ++ ['"'])]
      simp
    · rw [show dupQuotes (c :: v) = c :: dupQuotes v from by
        simp [dupQuotes, hc]]
      have h1 : (c :: dupQuotes v).length + 1 + r.length =
          ((dupQuotes v).length + 1 + r.length) + 1 := by simp; omega
      rw [h1]
      show splitCsvAux ((dupQuotes v).length + 1 + r.length + 1) 1 cur
          (c :: (dupQuotes v ++ '"' :: r)) = _
      rw [splitCsvAux_succ, if_pos rfl, if_neg hc, ih r (cur ++ [c])]
      simp

theorem splitCsv_bare_nil (v cur : List Char) (h : hasSpecialChar v = false) :
    splitCsvAux v.length 0 cur v = [cur ++ v] := by
  have hx := splitCsv_bare v [] cur h
  simpa [splitCsvAux] using hx

theorem splitCsv_bare_comma (v t cur : List Char)
    (h : hasSpecialChar v = false) :
    splitCsvAux (v ++ ',' :: t).length 0 cur (v ++ ',' :: t) =
      (cur ++ v) :: splitCsvAux t.length 0 [] t := by
  rw [splitCsv_bare v (',' :: t) cur h]
  show splitCsvAux (t.length + 1) 0 (cur ++ v) (',' :: t) = _
  rw [splitCsvAux_succ, if_neg (by decide), if_neg (by decide), if_pos rfl]

theorem splitCsv_quoted_end (v cur : List Char) :
    splitCsvAux ((dupQuotes v).length + 1) 1 cur (dupQuotes v ++ ['"']) =
      [cur ++ v] := by
  have hx := splitCsv_quoted v [] cur
  simp only [List.length_nil, Nat.add_zero] at hx
  rw [show dupQuotes v ++ ['"'] = dupQuotes v ++ '"' :: ([] : List Char)
    from rfl, hx]
  simp [splitCsvAux]

theorem splitCsv_quoted_comma (v t cur : List Char) :
    splitCsvAux ((dupQuotes v).length + 1 + (t.length + 1)) 1 cur
        (dupQuotes v ++ '"' :: ',' :: t) =
      (cur ++ v) :: splitCsvAux t.length 0 [] t := by
  have hx := splitCsv_quoted v (',' :: t) cur
  rw [show (',' :: t).length = t.length + 1 from rfl] at hx
  rw [hx]
  show splitCsvAux (t.length + 1) 2 (cur ++ v) (',' :: t) = _
  rw [splitCsvAux_succ, if_neg (by decide), if_pos rfl, if_neg (by decide),
    if_pos rfl]

theorem escape_csv_of_not_special (v : String)
    (h : hasSpecialChar v.data = false) : escape_csv v = v := by
  unfold escape_csv
  by_cases hv : v = ""
  · rw [if_pos hv, hv]
  · rw [if_neg hv, if_neg (by simp [h])]

theorem escape_csv_of_special (v : String)
    (h : hasSpecialChar v.data = true) :
    (escape_csv v).data = '"' :: (dupQuotes v.data ++ ['"']) := by
  have hne : ¬(v = "") := by
    intro he
    subst he
    simp [hasSpecialChar] at h
  unfold escape_csv
  rw [if_neg hne, if_pos h]

theorem splitCsv_roundtrip : ∀ (vs : List String), vs ≠ [] →
    splitCsvChars (joinC (vs.map (fun u => (escape_csv u).data))) =
      vs.map (fun u => u.data) := by
  intro vs
  induction vs with
  | nil => intro h; exact absurd rfl h
  | cons v vs ih =>
    intro _
    cases vs with
    | nil =>
      show splitCsvChars (joinC [(escape_csv v).data]) = [v.data]
      rw [show joinC [(escape_csv v).data] = (escape_csv v).data from rfl]
      by_cases hs : hasSpecialChar v.data = true
      · rw [escape_csv_of_special v hs]
        unfold splitCsvChars
        show splitCsvAux ((dupQuotes v.data ++ ['"']).length + 1) 0 []
          ('"' :: (dupQuotes v.data ++ ['"'])) = [v.data]
        rw [splitCsvAux_succ, if_neg (by decide), if_neg (by decide),
          if_neg (by decide), if_pos rfl]
        rw [show (dupQuotes v.data ++ ['"']).length =
          (dupQuotes v.data).length + 1 from by simp]
        rw [splitCsv_quoted_end]
        simp
      · have hs' : hasSpecialChar v.data = false := by simpa using hs
        rw [escape_csv_of_not_special v hs']
        unfold splitCsvChars
        rw [splitCsv_bare_nil v.data [] hs']
        simp
    | cons w vs2 =>
      have hjoin : joinC ((v :: w :: vs2).map (fun u => (escape_csv u).data)) =
          (escape_csv v).data ++
            ',' :: joinC ((w :: vs2).map (fun u => (escape_csv u).data)) := rfl
      rw [hjoin]
      by_cases hs : hasSpecialChar v.data = true
      · rw [escape_csv_of_special v hs]
        rw [show ('"' :: (dupQuotes v.data ++ ['"'])) ++
            ',' :: joinC ((w :: vs2).map (fun u => (escape_csv u).data)) =
          '"' :: (dupQuotes v.data ++
            '"' :: ',' :: joinC ((w :: vs2).map (fun u => (escape_csv u).data)))
          from by simp]
        unfold splitCsvChars
        show splitCsvAux
          ((dupQuotes v.data ++
            '"' :: ',' :: joinC ((w :: vs2).map
              (fun u => (escape_csv u).data))).length + 1) 0 []
          ('"' :: (dupQuotes v.data ++
            '"' :: ',' :: joinC ((w :: vs2).map
              (fun u => (escape_csv u).data)))) = _
        rw [splitCsvAux_succ, if_neg (by decide), if_neg (by decide),
          if_neg (by decide), if_pos rfl]
        rw [show (dupQuotes v.data ++
            '"' :: ',' :: joinC ((w :: vs2).map
              (fun u => (escape_csv u).data))).length =
          (dupQuotes v.data).length + 1 +
            ((joinC ((w :: vs2).map (fun u => (escape_csv u).data))).length + 1)
          from by simp; omega]
        rw [splitCsv_quoted_comma]
        rw [show splitCsvAux
            (joinC ((w :: vs2).map (fun u => (escape_csv u).data))).length 0 []
            (joinC ((w :: vs2).map (fun u => (escape_csv u).data))) =
          splitCsvChars (joinC ((w :: vs2).map (fun u => (escape_csv u).data)))
          from rfl]
        rw [ih (by simp)]
        simp
      · have hs' : hasSpecialChar v.data = false := by simpa using hs
        rw [escape_csv_of_not_special v hs']
        unfold splitCsvChars
        rw [splitCsv_bare_comma _ _ _ hs']
        rw [show splitCsvAux
            (joinC ((w :: vs2).map (fun u => (escape_csv u).data))).length 0 []
            (joinC ((w :: vs2).map (fun u => (escape_csv u).data))) =
          splitCsvChars (joinC ((w :: vs2).map (fun u => (escape_csv u).data)))
          from rfl]
        rw [ih (by simp)]
        simp

/-- C7: `_escape_csv` wraps a value in double quotes with internal quotes
doubled exactly when it contains a comma, double quote or newline
(otherwise the value is emitted bare), and splitting comma-joined escaped
fields back apart with an RFC-4180 quote-respecting splitter recovers
every original string exactly. -/
theorem C7_csv_escaping_and_round_trip :
    (∀ v : String,
      escape_csv v =
        if hasSpecialChar v.data then String.mk ('"' :: (dupQuotes v.data ++ ['"']))
        else v) ∧
    (∀ vs : List String, vs ≠ [] →
      splitCsvChars (joinC (vs.map (fun u => (escape_csv u).data))) =
        vs.map (fun u => u.data)) := by
  constructor
  · intro v
    by_cases hs : hasSpecialChar v.data = true
    · rw [if_pos hs]
      have := escape_csv_of_special v hs
      cases hesc : escape_csv v with
      | mk l =>
        rw [hesc] at this
        simp only at this
        rw [this]
    · have hs' : hasSpecialChar v.data = false := by simpa using hs
      rw [if_neg (by simp [hs'])]
      exact escape_csv_of_not_special v hs'
  · exact splitCsv_roundtrip

/-- C7, witness: the round trip applied to the fields
`["Guest, Network", "OPEN"]` (escaping quotes the first field; re-splitting
recovers both strings). -/
theorem C7_csv_round_trip_witness :
    splitCsvChars (joinC ((["Guest, Network", "OPEN"] : List String).map
        (fun u => (escape_csv u).data))) =
      (["Guest, Network", "OPEN"] : List String).map (fun u => u.data) :=
  C7_csv_escaping_and_round_trip.2 ["Guest, Network", "OPEN"] (by simp)

/-- C8: in mutating mode, a WiGLE CSV run that removes zero rows performs
no write at all (the file content — hence its mtime — is untouched), and
whenever the file is rewritten the first two header lines of the new
content are exactly the first two lines of the old file, and at least one
data row was removed. -/
theorem C8_csv_rewrite_only_on_removal :
    ∀ (lines : List String) (rules : List FilterRule),
      ((process_wigle_csv lines rules false).2.removed_count = 0 →
        (process_wigle_csv lines rules false).1 = none) ∧
      (∀ nf, (process_wigle_csv lines rules false).1 = some nf →
        nf.take 2 = lines.take 2 ∧
        (process_wigle_csv lines rules false).2.removed_count > 0) := by
  intro lines rules
  by_cases hlen : lines.length < 2
  · refine ⟨fun _ => ?_, fun nf hnf => ?_⟩
    · simp [process_wigle_csv, hlen]
    · exfalso
      simp [process_wigle_csv, hlen] at hnf
  · have hl2 : (lines.take 2).length = 2 := by
      rw [List.length_take]
      omega
    by_cases hrm :
        (List.foldl (wigleCsvStep rules) ([], []) (List.drop 2 lines)).1.length <
          lines.length - 2
    · refine ⟨fun h0 => ?_, fun nf hnf => ?_⟩
      · exfalso
        simp [process_wigle_csv, hlen] at h0
        rw [if_pos hrm] at h0
        simp at h0
        omega
      · have hnf2 : lines.take 2 ++
            (List.foldl (wigleCsvStep rules) ([], []) (List.drop 2 lines)).1 =
            nf := by
          simp [process_wigle_csv, hlen, hrm] at hnf
          exact hnf
        constructor
        · rw [← hnf2, List.take_append_eq_append_take, hl2]
          simp [List.take_take]
        · simp [process_wigle_csv, hlen]
          rw [if_pos hrm]
          simp
          omega
    · refine ⟨fun _ => ?_, fun nf hnf => ?_⟩
      · simp [process_wigle_csv, hlen, hrm]
      · exfalso
        simp [process_wigle_csv, hlen, hrm] at hnf

/-- C8, witness: (a) a run removing nothing returns no write; (b) a run
removing one row writes a file whose two header lines are preserved. -/
theorem C8_csv_rewrite_witness :
    (process_wigle_csv ["h1", "h2", "AA,Good,x"]
        [{ value := "Bad", match_type := "exact", description := "" }]
        false).1 = none ∧
    (["h1", "h2"] : List String).take 2 =
        (["h1", "h2", "AA,Bad,x"] : List String).take 2 ∧
      (process_wigle_csv ["h1", "h2", "AA,Bad,x"]
        [{ value := "Bad", match_type := "exact", description := "" }]
        false).2.removed_count > 0 := by
  constructor
  · exact (C8_csv_rewrite_only_on_removal ["h1", "h2", "AA,Good,x"]
      [{ value := "Bad", match_type := "exact", description := "" }]).1
      (by decide)
  · exact (C8_csv_rewrite_only_on_removal ["h1", "h2", "AA,Bad,x"]
      [{ value := "Bad", match_type := "exact", description := "" }]).2
      ["h1", "h2"] (by decide)

/-- C4: a scan/dry run computes a `ProcessingResult` identical to the
corresponding mutating run from the same initial state: for the capture
database whenever the mutating run succeeds (same oracle), and for the
WiGLE CSV unconditionally — the two runs differ only in whether the
write/deletion happens. -/
theorem C4_dry_run_result_equivalence :
    ∀ (db : KismetDB) (rules : List FilterRule) (oracle : Nat → OpOutcome)
      (lines : List String),
      ((process_kismetdb db rules false oracle).2.success = true →
        (process_kismetdb db rules true oracle).2 =
          (process_kismetdb db rules false oracle).2) ∧
      (process_wigle_csv lines rules true).2 =
        (process_wigle_csv lines rules false).2 := by
  intro db rules oracle lines
  constructor
  · intro hsucc
    by_cases h0 : oracle 0 = OpOutcome.ok
    · by_cases hk : (kdbScan db rules).1 = []
      · simp [process_kismetdb, h0, hk]
      · cases hex : execOps oracle 1 db
            (deleteOps (kdbScan db rules).1 (kdbScan db rules).2.1) with
        | none =>
          exfalso
          simp [process_kismetdb, h0, hk, hex] at hsucc
        | some memi =>
          by_cases hc : oracle memi.2 = OpOutcome.ok
          · simp [process_kismetdb, h0, hk, hex, hc]
          · exfalso
            simp [process_kismetdb, h0, hk, hex, hc] at hsucc
    · exfalso
      simp [process_kismetdb, h0] at hsucc
  · by_cases hlen : lines.length < 2
    · simp [process_wigle_csv, hlen]
    · simp only [process_wigle_csv, if_neg hlen]
      split <;> split <;> rfl

/-- C4, witness: the equivalence applied to `sampleDb` with the error-free
oracle (the mutating run succeeds there) and to a concrete three-line
CSV. -/
theorem C4_dry_run_witness :
    (process_kismetdb sampleDb [sampleRule] true noErrOracle).2 =
      (process_kismetdb sampleDb [sampleRule] false noErrOracle).2 ∧
    (process_wigle_csv ["h1", "h2", "AA,Bad,x"] [sampleRule] true).2 =
      (process_wigle_csv ["h1", "h2", "AA,Bad,x"] [sampleRule] false).2 :=
  ⟨(C4_dry_run_result_equivalence sampleDb [sampleRule] noErrOracle
      ["h1", "h2", "AA,Bad,x"]).1 (by decide),
   (C4_dry_run_result_equivalence sampleDb [sampleRule] noErrOracle
      ["h1", "h2", "AA,Bad,x"]).2⟩

theorem execOps_noErr : ∀ (ops : List DbOp) (i : Nat) (mem : KismetDB),
    execOps noErrOracle i mem ops = some (applyOps mem ops, i + ops.length) := by
  intro ops
  induction ops with
  | nil => intro i mem; simp [execOps, applyOps]
  | cons op rest ih =>
    intro i mem
    rw [show execOps noErrOracle i mem (op :: rest) =
      execOps noErrOracle (i + 1) (applyOp mem op) rest from rfl]
    rw [ih]
    rw [show applyOps mem (op :: rest) =
      applyOps (applyOp mem op) rest from rfl]
    have hidx : i + 1 + rest.length = i + (op :: rest).length := by
      simp
      omega
    rw [hidx]

theorem kdbScan_foldl_len (rules : List FilterRule) :
    ∀ (l : List DeviceRow) (acc : List Int × List String × List MatchEntry),
      acc.1.length = acc.2.1.length →
      (l.foldl (kdbScanStep rules) acc).1.length =
        (l.foldl (kdbScanStep rules) acc).2.1.length := by
  intro l
  induction l with
  | nil => intro acc h; simpa using h
  | cons d l ih =>
    intro acc h
    rw [List.foldl_cons]
    apply ih
    unfold kdbScanStep
    cases firstSsidMatch rules (extract_ssids_from_device d.device) <;>
      simp [h]

theorem kdbScan_macs_nil (db : KismetDB) (rules : List FilterRule)
    (h : (kdbScan db rules).1 = []) : (kdbScan db rules).2.1 = [] := by
  have hlen := kdbScan_foldl_len rules
    (db.devices.filter (fun d => d.phyname = "IEEE802.11")) ([], [], []) rfl
  rw [show (db.devices.filter (fun d => d.phyname = "IEEE802.11")).foldl
      (kdbScanStep rules) ([], [], []) = kdbScan db rules from rfl] at hlen
  rw [h] at hlen
  exact List.length_eq_zero.mp hlen.symm

/-- C2: in mutating mode the staged deletes reach the on-disk database
only through the single final commit: (i) whenever the returned
`ProcessingResult` has `success = false` — a database error at the
`SELECT`, at any staged delete, or at the commit — the on-disk state is
exactly the pre-run state, with no partial deletion; (ii) an error-free
run commits exactly the whole staged batch and reports success. -/
theorem C2_kismetdb_single_commit_atomicity :
    ∀ (db : KismetDB) (rules : List FilterRule) (oracle : Nat → OpOutcome),
      ((process_kismetdb db rules false oracle).2.success = false →
        (process_kismetdb db rules false oracle).1 = db) ∧
      ((process_kismetdb db rules false noErrOracle).1 =
          applyOps db (deleteOps (kdbScan db rules).1 (kdbScan db rules).2.1) ∧
        (process_kismetdb db rules false noErrOracle).2.success = true) := by
  intro db rules oracle
  constructor
  · intro hfail
    by_cases h0 : oracle 0 = OpOutcome.ok
    · by_cases hk : (kdbScan db rules).1 = []
      · exfalso
        simp [process_kismetdb, h0, hk] at hfail
      · cases hex : execOps oracle 1 db
            (deleteOps (kdbScan db rules).1 (kdbScan db rules).2.1) with
        | none => simp [process_kismetdb, h0, hk, hex]
        | some memi =>
          by_cases hc : oracle memi.2 = OpOutcome.ok
          · exfalso
            simp [process_kismetdb, h0, hk, hex, hc] at hfail
          · simp [process_kismetdb, h0, hk, hex, hc]
    · simp [process_kismetdb, h0]
  · by_cases hk : (kdbScan db rules).1 = []
    · have hm := kdbScan_macs_nil db rules hk
      constructor
      · simp [process_kismetdb, noErrOracle, hk, hm, deleteOps, applyOps]
      · simp [process_kismetdb, noErrOracle, hk]
    · constructor
      · simp [process_kismetdb, noErrOracle, hk, execOps_noErr]
      · simp [process_kismetdb, noErrOracle, hk, execOps_noErr]

/-- C2, witness: with the oracle that fails the first staged delete on
`sampleDb` (whose one WiFi device matches the rule), the mutating run
reports failure and the on-disk database is exactly the pre-run state. -/
theorem C2_kismetdb_single_commit_witness :
    (process_kismetdb sampleDb [sampleRule] false sampleFailOracle).2.success =
        false ∧
    (process_kismetdb sampleDb [sampleRule] false sampleFailOracle).1 =
      sampleDb :=
  ⟨by decide,
   (C2_kismetdb_single_commit_atomicity sampleDb [sampleRule]
      sampleFailOracle).1 (by decide)⟩

theorem btlePhase2_pos : ∀ (rows : List (DeviceRow × PacketRow)) (now : ℚ)
    (acc : List DeviceRecord) (seen : List String),
    (∀ r ∈ acc, r.latitude ≠ 0 ∧ r.longitude ≠ 0) →
    (∀ dp ∈ rows, dp.2.lat ≠ 0 ∧ dp.2.lon ≠ 0) →
    ∀ r ∈ btlePhase2 now rows acc seen, r.latitude ≠ 0 ∧ r.longitude ≠ 0 := by
  intro rows
  induction rows with
  | nil =>
    intro now acc seen hacc _ r hr
    exact hacc r (by simpa [btlePhase2] using hr)
  | cons dp rest ih =>
    intro now acc seen hacc hrows r hr
    rw [btlePhase2] at hr
    by_cases hm : pyUpper dp.1.devmac ∈ seen
    · rw [if_pos hm] at hr
      exact ih now acc seen hacc
        (fun q hq => hrows q (List.mem_cons_of_mem _ hq)) r hr
    · rw [if_neg hm] at hr
      refine ih now _ _ ?_
        (fun q hq => hrows q (List.mem_cons_of_mem _ hq)) r hr
      intro r2 hr2
      rcases List.mem_append.mp hr2 with h1 | h2
      · exact hacc r2 h1
      · simp only [List.mem_singleton] at h2
        subst h2
        exact hrows dp (List.mem_cons_self _ _)

theorem btleFallbackQuery_pos (db : KismetDB) :
    ∀ dp ∈ btleFallbackQuery db, dp.2.lat ≠ 0 ∧ dp.2.lon ≠ 0 := by
  intro dp hdp
  unfold btleFallbackQuery at hdp
  rw [List.mem_filterMap] at hdp
  obtain ⟨d, hd, hmap⟩ := hdp
  rw [Option.map_eq_some'] at hmap
  obtain ⟨p, hfind, hpair⟩ := hmap
  have hprop := List.find?_some hfind
  simp only [decide_eq_true_eq] at hprop
  rw [← hpair]
  exact ⟨hprop.2.1, hprop.2.2⟩

/-- C6: every `DeviceRecord` produced by any of the three extraction
functions has both latitude and longitude non-zero — a device with no
resolvable position never reaches the output with a 0,0 placeholder. -/
theorem C6_extracted_records_have_nonzero_position :
    ∀ (db : KismetDB) (now : ℚ) (r : DeviceRecord),
      (r ∈ extract_wifi_devices db now ∨ r ∈ extract_btle_devices db now ∨
        r ∈ extract_bt_devices db now) →
      r.latitude ≠ 0 ∧ r.longitude ≠ 0 := by
  intro db now r hr
  rcases hr with h | h | h
  · unfold extract_wifi_devices at h
    rw [List.mem_map] at h
    obtain ⟨d, hd, rfl⟩ := h
    rw [List.mem_filter] at hd
    have hp := hd.2
    simp only [decide_eq_true_eq] at hp
    exact ⟨hp.2.1, hp.2.2⟩
  · unfold extract_btle_devices at h
    refine btlePhase2_pos _ now _ _ ?_ (btleFallbackQuery_pos db) r h
    intro r2 hr2
    rw [List.mem_map] at hr2
    obtain ⟨d, hd, rfl⟩ := hr2
    unfold btleAvgQuery at hd
    rw [List.mem_filter] at hd
    have hp := hd.2
    simp only [decide_eq_true_eq] at hp
    exact ⟨hp.2.1, hp.2.2⟩
  · unfold extract_bt_devices at h
    rw [List.mem_map] at h
    obtain ⟨d, hd, rfl⟩ := h
    rw [List.mem_filter] at hd
    have hp := hd.2
    simp only [decide_eq_true_eq] at hp
    exact ⟨hp.2.1, hp.2.2⟩

/-- C6, witness: the BTLE record extracted from `sampleDb` through the
packet fallback has non-zero coordinates. -/
theorem C6_nonzero_position_witness :
    (mkBtleFallbackRecord 0 (sampleBtleDev, samplePacketB)).latitude ≠ 0 ∧
    (mkBtleFallbackRecord 0 (sampleBtleDev, samplePacketB)).longitude ≠ 0 :=
  C6_extracted_records_have_nonzero_position sampleDb 0
    (mkBtleFallbackRecord 0 (sampleBtleDev, samplePacketB))
    (Or.inr (Or.inl (by decide)))

theorem splitOnComma_no_comma : ∀ (a : List Char), ',' ∉ a →
    splitOnComma a = [a] := by
  intro a
  induction a with
  | nil => intro _; rfl
  | cons c a ih =>
    intro h
    have hc : ¬(c = ',') := fun hh => h (by simp [hh])
    have ha : ',' ∉ a := fun hh => h (List.mem_cons_of_mem _ hh)
    rw [splitOnComma, if_neg hc, ih ha]

theorem splitOnComma_append : ∀ (a b : List Char), ',' ∉ a →
    splitOnComma (a ++ ',' :: b) = a :: splitOnComma b := by
  intro a
  induction a with
  | nil =>
    intro b _
    show splitOnComma (',' :: b) = [] :: splitOnComma b
    rw [splitOnComma, if_pos rfl]
  | cons c a ih =>
    intro b h
    have hc : ¬(c = ',') := fun hh => h (by simp [hh])
    have ha : ',' ∉ a := fun hh => h (List.mem_cons_of_mem _ hh)
    show splitOnComma (c :: (a ++ ',' :: b)) = (c :: a) :: splitOnComma b
    rw [splitOnComma, if_neg hc, ih b ha]

theorem dupQuotes_append : ∀ (a b : List Char),
    dupQuotes (a ++ b) = dupQuotes a ++ dupQuotes b := by
  intro a b
  induction a with
  | nil => rfl
  | cons c a ih =>
    by_cases hc : c = '"' <;> simp [dupQuotes, hc, ih]

theorem comma_not_mem_dupQuotes : ∀ (a : List Char), ',' ∉ a →
    ',' ∉ dupQuotes a := by
  intro a
  induction a with
  | nil => intro _; simp [dupQuotes]
  | cons c a ih =>
    intro h
    have hc : ¬(c = ',') := fun hh => h (by simp [hh])
    have ha := ih (fun hh => h (List.mem_cons_of_mem _ hh))
    by_cases hq : c = '"'
    · simp only [dupQuotes, if_pos hq, List.mem_cons]
      rintro (h1 | h1 | h1)
      · exact absurd h1 (by decide)
      · exact absurd h1 (by decide)
      · exact ha h1
    · simp only [dupQuotes, if_neg hq, List.mem_cons]
      rintro (h1 | h1)
      · exact hc h1.symm
      · exact ha h1

theorem dupQuotes_length : ∀ (a : List Char), a.length ≤ (dupQuotes a).length := by
  intro a
  induction a with
  | nil => simp [dupQuotes]
  | cons c a ih =>
    by_cases hq : c = '"' <;> simp [dupQuotes, hq] <;> omega

theorem takeWhile_comma_split : ∀ (v : List Char), ',' ∈ v →
    ∃ suf, v = v.takeWhile (fun c => c ≠ ',') ++ ',' :: suf := by
  intro v
  induction v with
  | nil => intro h; simp at h
  | cons c v ih =>
    intro h
    by_cases hc : c = ','
    · subst hc
      refine ⟨v, ?_⟩
      rw [List.takeWhile_cons]
      simp
    · have hv : ',' ∈ v := by
        rcases List.mem_cons.mp h with h1 | h2
        · exact absurd h1.symm hc
        · exact h2
      obtain ⟨suf, hsuf⟩ := ih hv
      refine ⟨suf, ?_⟩
      rw [List.takeWhile_cons, if_pos (by simp [hc]), List.cons_append,
        ← hsuf]

theorem comma_not_mem_takeWhile (v : List Char) :
    ',' ∉ v.takeWhile (fun c => c ≠ ',') := by
  intro h
  have := List.mem_takeWhile_imp h
  simp at this

theorem process_wigle_csv_singleton_row (h1 h2 row : String)
    (rules : List FilterRule) (s0 tested : String) (t2 : List String)
    (hparts : pySplitComma row = s0 :: tested :: t2) :
    (process_wigle_csv [h1, h2, row] rules false).2.removed_count =
      (if (find_matching_rule tested rules).isSome then 1 else 0) := by
  cases hfind : find_matching_rule tested rules with
  | some r =>
    simp [process_wigle_csv, wigleCsvStep, hparts, hfind, WIGLE_SSID_COL,
      WIGLE_MAC_COL]
  | none =>
    simp [process_wigle_csv, wigleCsvStep, hparts, hfind, WIGLE_SSID_COL,
      WIGLE_MAC_COL]

/-- C10: the CSV Filter Remover tests, for each data row, exactly the
second field of the raw line split on every comma with no RFC-4180
unquoting — so whenever the exporter quoted a device name (because it
contains a comma or a double quote), the string tested against the rules
differs from the device name: it begins with the opening quote and, when
the name contains a comma, is truncated at the name's first embedded
comma (with internal quotes still doubled). -/
theorem C10_naive_split_tests_escaped_name :
    ∀ (d : DeviceRecord) (rules : List FilterRule) (h1 h2 : String),
      (',' ∉ d.mac.data) →
      (',' ∈ d.name.data ∨ '"' ∈ d.name.data) →
      ((pySplitComma (format_device_row d)).getD WIGLE_SSID_COL "" ≠ d.name ∧
       ((pySplitComma (format_device_row d)).getD WIGLE_SSID_COL
           "").data.head? = some '"' ∧
       (',' ∈ d.name.data →
         (pySplitComma (format_device_row d)).getD WIGLE_SSID_COL "" =
           String.mk ('"' ::
             dupQuotes (d.name.data.takeWhile (fun c => c ≠ ',')))) ∧
       (process_wigle_csv [h1, h2, format_device_row d] rules
           false).2.removed_count =
         (if (find_matching_rule
               ((pySplitComma (format_device_row d)).getD WIGLE_SSID_COL "")
               rules).isSome
          then 1 else 0)) := by
  intro d rules h1 h2 hmac hname
  have hspec : hasSpecialChar d.name.data = true := by
    rcases hname with hc | hq
    · exact List.any_eq_true.mpr ⟨',', hc, by decide⟩
    · exact List.any_eq_true.mpr ⟨'"', hq, by decide⟩
  have hesc := escape_csv_of_special d.name hspec
  obtain ⟨tl, hrowdata⟩ : ∃ tl, (format_device_row d).data =
      d.mac.data ++ ',' :: ((escape_csv d.name).data ++ ',' :: tl) := by
    refine ⟨(d.auth_mode).data ++ ',' :: ((formatTimestamp d.first_seen).data
      ++ ',' :: ((toString d.channel).data ++ ',' :: ((toString d.rssi).data
      ++ ',' :: ((formatFixed 6 d.latitude).data ++ ',' ::
        ((formatFixed 6 d.longitude).data ++ ',' ::
          ((formatFixed 1 d.altitude).data ++ ',' ::
            ((formatFixed 1 d.accuracy).data ++ ',' ::
              (d.device_type).data))))))), ?_⟩
    unfold format_device_row
    simp [String.data_append]
  by_cases hc : ',' ∈ d.name.data
  · -- the name contains a comma: the tested field is the quoted prefix
    obtain ⟨suf, hsufeq⟩ := takeWhile_comma_split d.name.data hc
    have hdupsplit : dupQuotes d.name.data =
        dupQuotes (d.name.data.takeWhile (fun c => c ≠ ',')) ++
          ',' :: dupQuotes suf := by
      conv =>
        lhs
        rw [hsufeq]
      rw [dupQuotes_append]
      rw [show dupQuotes (',' :: suf) = ',' :: dupQuotes suf from by
        rw [dupQuotes, if_neg (by decide)]]
    have hfield : (escape_csv d.name).data ++ ',' :: tl =
        ('"' :: dupQuotes (d.name.data.takeWhile (fun c => c ≠ ','))) ++
          ',' :: ((dupQuotes suf ++ ['"']) ++ ',' :: tl) := by
      rw [hesc, hdupsplit]
      simp
    have hnc1 : ',' ∉
        ('"' :: dupQuotes (d.name.data.takeWhile (fun c => c ≠ ','))) := by
      intro hmem
      rcases List.mem_cons.mp hmem with h' | h'
      · exact absurd h' (by decide)
      · exact comma_not_mem_dupQuotes _ (comma_not_mem_takeWhile d.name.data) h'
    have hsplit : splitOnComma (format_device_row d).data =
        d.mac.data ::
          ('"' :: dupQuotes (d.name.data.takeWhile (fun c => c ≠ ','))) ::
            splitOnComma ((dupQuotes suf ++ ['"']) ++ ',' :: tl) := by
      rw [hrowdata, splitOnComma_append _ _ hmac, hfield,
        splitOnComma_append _ _ hnc1]
    have hparts : pySplitComma (format_device_row d) =
        String.mk d.mac.data ::
          String.mk ('"' ::
            dupQuotes (d.name.data.takeWhile (fun c => c ≠ ','))) ::
            (splitOnComma ((dupQuotes suf ++ ['"']) ++ ',' :: tl)).map
              String.mk := by
      unfold pySplitComma
      rw [hsplit]
      rfl
    have hgetD : (pySplitComma (format_device_row d)).getD WIGLE_SSID_COL "" =
        String.mk ('"' ::
          dupQuotes (d.name.data.takeWhile (fun c => c ≠ ','))) := by
      rw [hparts]
      rfl
    refine ⟨?_, ?_, fun _ => hgetD, ?_⟩
    · rw [hgetD]
      intro heq
      have hdata : ('"' ::
          dupQuotes (d.name.data.takeWhile (fun c => c ≠ ','))) =
          d.name.data := congrArg String.data heq
      rw [← hdata] at hc
      exact hnc1 hc
    · rw [hgetD]
      rfl
    · rw [hgetD]
      exact process_wigle_csv_singleton_row h1 h2 _ rules _ _ _ hparts
  · -- the name contains a quote but no comma: the whole escaped field
    have hq : '"' ∈ d.name.data := by
      rcases hname with h' | h'
      · exact absurd h' hc
      · exact h'
    have hnc1 : ',' ∉ ('"' :: (dupQuotes d.name.data ++ ['"'])) := by
      intro hmem
      rcases List.mem_cons.mp hmem with h' | h'
      · exact absurd h' (by decide)
      · rcases List.mem_append.mp h' with h2' | h2'
        · exact comma_not_mem_dupQuotes _ hc h2'
        · simp at h2'
    have hsplit : splitOnComma (format_device_row d).data =
        d.mac.data :: ('"' :: (dupQuotes d.name.data ++ ['"'])) ::
          splitOnComma tl := by
      rw [hrowdata, splitOnComma_append _ _ hmac, hesc,
        splitOnComma_append _ _ hnc1]
    have hparts : pySplitComma (format_device_row d) =
        String.mk d.mac.data ::
          String.mk ('"' :: (dupQuotes d.name.data ++ ['"'])) ::
            (splitOnComma tl).map String.mk := by
      unfold pySplitComma
      rw [hsplit]
      rfl
    have hgetD : (pySplitComma (format_device_row d)).getD WIGLE_SSID_COL "" =
        String.mk ('"' :: (dupQuotes d.name.data ++ ['"'])) := by
      rw [hparts]
      rfl
    refine ⟨?_, ?_, fun hcc => absurd hcc hc, ?_⟩
    · rw [hgetD]
      intro heq
      have hdata : ('"' :: (dupQuotes d.name.data ++ ['"'])) =
          d.name.data := congrArg String.data heq
      have hlen : ('"' :: (dupQuotes d.name.data ++ ['"'])).length =
          d.name.data.length := congrArg List.length hdata
      have := dupQuotes_length d.name.data
      simp at hlen
      have hsl : d.name.length = d.name.data.length := rfl
      omega
    · rw [hgetD]
      rfl
    · rw [hgetD]
      exact process_wigle_csv_singleton_row h1 h2 _ rules _ _ _ hparts

/-- C10, witness: the formatter quotes `Guest, Network`, and the tested
second field of the naive split is the truncated `"Guest` (with the
opening quote), not the device name. -/
theorem C10_naive_split_witness :
    (pySplitComma (format_device_row sampleDevRecord)).getD WIGLE_SSID_COL ""
        ≠ sampleDevRecord.name ∧
    ((pySplitComma (format_device_row sampleDevRecord)).getD WIGLE_SSID_COL
        "").data.head? = some '"' := by
  have h := C10_naive_split_tests_escaped_name sampleDevRecord [] "h1" "h2"
    (by decide) (Or.inl (by decide))
  exact ⟨h.1, h.2.1⟩

theorem filterMap_pair_fst {α β : Type} (g : α → Option β) :
    ∀ (l : List α),
      (l.filterMap (fun d => (g d).map (fun p => (d, p)))).map Prod.fst =
        l.filter (fun d => (g d).isSome) := by
  intro l
  induction l with
  | nil => rfl
  | cons d l ih =>
    cases hg : g d with
    | none => simp [List.filterMap_cons, List.filter_cons, hg, ih]
    | some p => simp [List.filterMap_cons, List.filter_cons, hg, ih]

theorem btlePhase2_all : ∀ (rows : List (DeviceRow × PacketRow)) (now : ℚ)
    (acc : List DeviceRecord) (seen : List String),
    ((rows.map (fun dp => pyUpper dp.1.devmac)).Nodup) →
    (∀ dp ∈ rows, pyUpper dp.1.devmac ∉ seen) →
    btlePhase2 now rows acc seen =
      acc ++ rows.map (mkBtleFallbackRecord now) := by
  intro rows
  induction rows with
  | nil => intro now acc seen _ _; simp [btlePhase2]
  | cons dp rest ih =>
    intro now acc seen hnd hseen
    rw [List.map_cons] at hnd
    have hnotin := (List.nodup_cons.mp hnd).1
    have hnd' := (List.nodup_cons.mp hnd).2
    rw [btlePhase2, if_neg (hseen dp (List.mem_cons_self _ _))]
    rw [ih now _ _ hnd']
    · simp
    · intro q hq
      intro hmem
      rcases List.mem_append.mp hmem with h1 | h1
      · exact hseen q (List.mem_cons_of_mem _ hq) h1
      · simp only [List.mem_singleton] at h1
        exact hnotin (h1 ▸ List.mem_map_of_mem _ hq)

/-- C1, counterexample: a WiFi device whose device-table averaged
position is zero and which has a packet-table row with non-zero latitude
and longitude joined on its address is nevertheless dropped —
`extract_wifi_devices` emits nothing for `sampleDb`, because the WiFi
query filters on the averaged position only and has no packet-table
fallback; the claimed uniform GPS fallback chain does not hold for WiFi. -/
theorem C1_wifi_no_packet_fallback_counterexample :
    extract_wifi_devices sampleDb 0 = [] ∧
    sampleWifiDev ∈ sampleDb.devices ∧
    sampleWifiDev.phyname = "IEEE802.11" ∧
    sampleWifiDev.avg_lat = 0 ∧ sampleWifiDev.avg_lon = 0 ∧
    samplePacket ∈ sampleDb.packets ∧
    samplePacket.sourcemac = sampleWifiDev.devmac ∧
    samplePacket.lat ≠ 0 ∧ samplePacket.lon ≠ 0 := by
  refine ⟨by decide, by decide, rfl, rfl, rfl, by decide, rfl, by decide,
    by decide⟩

/-- C1 (amended): the packet-table GPS fallback exists only for BTLE.
(i) Every WiFi record and (ii) every classic-Bluetooth record comes from
a device row with non-zero averaged position, and carries exactly that
averaged position — so a WiFi/BT device with zero averaged position is
dropped even when positioned packet rows exist.  (iii) For BTLE (device
MACs assumed distinct after upper-casing, matching the SQL `GROUP BY
devmac`), a device with zero averaged position and at least one packet
row with non-zero position is emitted with the position of one such
packet row — the first qualifying row in table order per the modelled
`GROUP BY`, not necessarily the strongest signal. -/
theorem C1_gps_packet_fallback_btle_only :
    ∀ (db : KismetDB) (now : ℚ),
      (∀ r ∈ extract_wifi_devices db now, ∃ d ∈ db.devices,
        d.phyname = "IEEE802.11" ∧ d.avg_lat ≠ 0 ∧ d.avg_lon ≠ 0 ∧
        r.latitude = d.avg_lat ∧ r.longitude = d.avg_lon ∧
        r.mac = pyUpper d.devmac) ∧
      (∀ r ∈ extract_bt_devices db now, ∃ d ∈ db.devices,
        d.phyname = "Bluetooth" ∧ d.avg_lat ≠ 0 ∧ d.avg_lon ≠ 0 ∧
        r.latitude = d.avg_lat ∧ r.longitude = d.avg_lon ∧
        r.mac = pyUpper d.devmac) ∧
      ((db.devices.map (fun d0 => pyUpper d0.devmac)).Nodup →
        ∀ d ∈ db.devices, d.phyname = "BTLE" → d.avg_lat = 0 →
        (∃ p ∈ db.packets, p.sourcemac = d.devmac ∧ p.lat ≠ 0 ∧ p.lon ≠ 0) →
        ∃ r ∈ extract_btle_devices db now, r.mac = pyUpper d.devmac ∧
          ∃ p ∈ db.packets, p.sourcemac = d.devmac ∧ p.lat ≠ 0 ∧ p.lon ≠ 0 ∧
            r.latitude = p.lat ∧ r.longitude = p.lon) := by
  intro db now
  refine ⟨?_, ?_, ?_⟩
  · intro r hr
    unfold extract_wifi_devices at hr
    rw [List.mem_map] at hr
    obtain ⟨d, hd, rfl⟩ := hr
    rw [List.mem_filter] at hd
    have hp := hd.2
    simp only [decide_eq_true_eq] at hp
    exact ⟨d, hd.1, hp.1, hp.2.1, hp.2.2, rfl, rfl, rfl⟩
  · intro r hr
    unfold extract_bt_devices at hr
    rw [List.mem_map] at hr
    obtain ⟨d, hd, rfl⟩ := hr
    rw [List.mem_filter] at hd
    have hp := hd.2
    simp only [decide_eq_true_eq] at hp
    exact ⟨d, hd.1, hp.1, hp.2.1, hp.2.2, rfl, rfl, rfl⟩
  · intro hnodup d hdmem hphy havg hpkt
    -- the device passes the fallback filter
    have hdfil : d ∈ db.devices.filter
        (fun d0 => d0.phyname = "BTLE" ∧ d0.avg_lat = 0) := by
      rw [List.mem_filter]
      exact ⟨hdmem, by simp [hphy, havg]⟩
    -- the qualifying-packet search succeeds
    obtain ⟨p0, hp0mem, hp0props⟩ := hpkt
    have hfound : (db.packets.find? (fun p =>
        p.sourcemac = d.devmac ∧ p.lat ≠ 0 ∧ p.lon ≠ 0)).isSome := by
      rw [List.find?_isSome]
      exact ⟨p0, hp0mem, by simp [hp0props.1, hp0props.2.1, hp0props.2.2]⟩
    obtain ⟨p1, hp1⟩ := Option.isSome_iff_exists.mp hfound
    have hp1props := List.find?_some hp1
    simp only [decide_eq_true_eq] at hp1props
    have hp1mem := List.mem_of_find?_eq_some hp1
    -- the (device, packet) row is in the fallback query
    have hrow : (d, p1) ∈ btleFallbackQuery db := by
      unfold btleFallbackQuery
      rw [List.mem_filterMap]
      exact ⟨d, hdfil, by rw [hp1]; rfl⟩
    -- shape of the fallback rows' device MACs
    have hfst : (btleFallbackQuery db).map Prod.fst =
        (db.devices.filter (fun d0 => d0.phyname = "BTLE" ∧ d0.avg_lat = 0)).filter
          (fun d0 => (db.packets.find? (fun p =>
            p.sourcemac = d0.devmac ∧ p.lat ≠ 0 ∧ p.lon ≠ 0)).isSome) := by
      unfold btleFallbackQuery
      exact filterMap_pair_fst _ _
    have hsubl : ((btleFallbackQuery db).map Prod.fst).Sublist db.devices := by
      rw [hfst]
      exact ((List.filter_sublist _).trans (List.filter_sublist _))
    have hrowsnd : ((btleFallbackQuery db).map
        (fun dp => pyUpper dp.1.devmac)).Nodup := by
      have h1 : (btleFallbackQuery db).map (fun dp => pyUpper dp.1.devmac) =
          ((btleFallbackQuery db).map Prod.fst).map
            (fun d0 => pyUpper d0.devmac) := by
        rw [List.map_map]; rfl
      rw [h1]
      exact List.Nodup.sublist (hsubl.map (fun d0 => pyUpper d0.devmac)) hnodup
    -- fallback devices are disjoint from the first query's MACs
    have hinj := List.inj_on_of_nodup_map hnodup
    have hseen : ∀ dp ∈ btleFallbackQuery db,
        pyUpper dp.1.devmac ∉
          ((btleAvgQuery db).map (fun d0 =>
            mkAvgRecord now (parse_btle_device d0.device) "BLE" "BLE" "BTLE" 0
              d0)).map (fun r => r.mac) := by
      intro dp hdp hmem
      rw [List.map_map, List.mem_map] at hmem
      obtain ⟨d1, hd1, heq⟩ := hmem
      unfold btleAvgQuery at hd1
      rw [List.mem_filter] at hd1
      have hd1p := hd1.2
      simp only [decide_eq_true_eq] at hd1p
      have hdpfst : dp.1 ∈ db.devices := by
        have : dp.1 ∈ (btleFallbackQuery db).map Prod.fst :=
          List.mem_map_of_mem _ hdp
        exact hsubl.mem this
      have hdpprops : dp.1 ∈ db.devices.filter
          (fun d0 => d0.phyname = "BTLE" ∧ d0.avg_lat = 0) := by
        have : dp.1 ∈ (btleFallbackQuery db).map Prod.fst :=
          List.mem_map_of_mem _ hdp
        rw [hfst] at this
        exact (List.filter_sublist _).mem this
      rw [List.mem_filter] at hdpprops
      have hdpz := hdpprops.2
      simp only [decide_eq_true_eq] at hdpz
      have hsame : d1 = dp.1 := hinj hd1.1 hdpfst heq
      rw [hsame] at hd1p
      exact hd1p.2.1 hdpz.2
    -- phase 2 therefore emits every fallback row
    have hphase2 := btlePhase2_all (btleFallbackQuery db) now
      ((btleAvgQuery db).map (fun d0 =>
        mkAvgRecord now (parse_btle_device d0.device) "BLE" "BLE" "BTLE" 0 d0))
      (((btleAvgQuery db).map (fun d0 =>
        mkAvgRecord now (parse_btle_device d0.device) "BLE" "BLE" "BTLE" 0
          d0)).map (fun r => r.mac))
      hrowsnd hseen
    refine ⟨mkBtleFallbackRecord now (d, p1), ?_, rfl,
      p1, hp1mem, hp1props.1, hp1props.2.1, hp1props.2.2, rfl, rfl⟩
    unfold extract_btle_devices
    rw [hphase2]
    exact List.mem_append_right _
      (List.mem_map_of_mem (mkBtleFallbackRecord now) hrow)

/-- C1, witness: the amended BTLE clause applied to `sampleDb`: its BTLE
device has zero averaged position and a positioned packet, and is emitted
with that packet's position. -/
theorem C1_gps_packet_fallback_witness :
    ∃ r ∈ extract_btle_devices sampleDb 0,
      r.mac = pyUpper sampleBtleDev.devmac ∧
      ∃ p ∈ sampleDb.packets, p.sourcemac = sampleBtleDev.devmac ∧
        p.lat ≠ 0 ∧ p.lon ≠ 0 ∧ r.latitude = p.lat ∧ r.longitude = p.lon :=
  (C1_gps_packet_fallback_btle_only sampleDb 0).2.2 (by decide)
    sampleBtleDev (by decide) rfl rfl
    ⟨samplePacketB, by decide, rfl, by decide, by decide⟩
